import Mathlib

/-!
# multi-lookup: requester / resolver pipeline over a bounded queue

A shallow embedding of `multi-lookup.c`.

* `main` embeds the set-up part of `main` (argument validation, opening the
  output file, queue construction, thread creation).
* `reqRoutine` and `resRoutine` embed the two thread routines as small-step
  transition functions: one step per statement that touches shared state.
  The interleaving semantics is `step`, which lets one thread take one step.
* Mutexes are `Option Tid` (the owner, if any); the condition variable
  `pushedQ` is the list of resolvers blocked in `pthread_cond_wait`.
-/

namespace MultiLookup

/-! ## Constants -/

/-- The stdlib exit code for success. -/
def EXIT_SUCCESS : Int := 0

/-- The stdlib exit code for failure. -/
def EXIT_FAILURE : Int := 1

/-- Source constant `MINARGS` (line 11). -/
def MINARGS : Int := 3

/-- Modelled from the spec: `util.h` is not among the sources; the resolution
collaborator returns success or a typed failure, here the two status codes. -/
def UTIL_FAILURE : Int := -1

/-- Modelled from the spec: the success status of the resolution collaborator. -/
def UTIL_SUCCESS : Int := 0

/-! ## Threads, mutexes and the condition variable -/

/-- Thread identifiers: the `j`-th requester and the `k`-th resolver created by `main`. -/
inductive Tid where
  | req (j : Nat)
  | res (k : Nat)
deriving DecidableEq, Repr

/-- A `pthread_mutex_t`: `none` when free, `some t` when thread `t` owns it. -/
abbrev Mutex := Option Tid

/-- Acquiring a mutex succeeds only when it is free; otherwise the caller stays
blocked (no step). -/
def pthread_mutex_lock (m : Mutex) (t : Tid) : Option Mutex :=
  match m with
  | none => some (some t)
  | some _ => none

/-- Releasing a mutex makes it free. -/
def pthread_mutex_unlock (_m : Mutex) : Mutex := none

/-- Signalling a condition variable with waiter list `waiters`: nothing happens
when nobody waits; otherwise exactly one waiter, the one picked by the
scheduler choice `w`, is released. A choice that is not a waiter is not a
step. There are no spurious wake-ups. -/
def pthread_cond_signal (waiters : List Nat) (w : Nat) : Option (List Nat) :=
  match waiters with
  | [] => some []
  | k :: ks => if w ∈ k :: ks then some ((k :: ks).erase w) else none

/-! ## The bounded queue -/

/-- Modelled from the spec: `queue.h` / `queue.c` are not among the sources.
The queue is an ordered FIFO sequence of payloads with a capacity fixed at
construction. -/
structure queue where
  items : List String
  maxSize : Nat
deriving DecidableEq, Repr

/-- Modelled from the spec: `is_full() -> bool` of the missing queue module. -/
def queue_is_full (q : queue) : Bool := decide (q.maxSize ≤ q.items.length)

/-- Modelled from the spec: `is_empty() -> bool` of the missing queue module. -/
def queue_is_empty (q : queue) : Bool := q.items.isEmpty

/-- Modelled from the spec: `push(item) -> success | full` of the missing queue
module; the Boolean is `true` on success, and a full queue is left unchanged. -/
def queue_push (q : queue) (payload : String) : queue × Bool :=
  if queue_is_full q then (q, false)
  else ({ q with items := q.items ++ [payload] }, true)

/-- Modelled from the spec: `pop() -> item | empty` of the missing queue
module; `none` stands for the NULL returned on an empty queue. -/
def queue_pop (q : queue) : queue × Option String :=
  match q.items with
  | [] => (q, none)
  | h :: t => ({ q with items := t }, some h)

/-! ## Shared state (the globals of lines 17-26) -/

/-- The global variables shared by all threads. `outputfp` is the sequence of
records written so far, each a pair (hostname, address). -/
structure Shared where
  inFileCount : Int
  inFilesRead : Int
  q : queue
  outputfp : List (String × String)
  qLock : Mutex
  outFileLock : Mutex
  readCountLock : Mutex
  pushedQ : List Nat
deriving DecidableEq, Repr

/-- The text that `fprintf(outputfp, "%s, %s\n", hostname, IP)` writes for a record. -/
def fprintfRecord (rec : String × String) : String :=
  rec.1 ++ ", " ++ rec.2 ++ "\n"

/-! ## Requester threads (`reqRoutine`, lines 29-59) -/

/-- Program points of `reqRoutine`, named after the statement about to run. -/
inductive ReqPc where
  | fopen        -- line 32
  | fscanf       -- line 37
  | lockQ        -- line 40
  | isFull       -- line 41
  | push         -- lines 42-45
  | signal       -- line 46
  | unlockQ      -- line 48
  | usleep       -- lines 49-50
  | lockCount    -- line 54
  | incr         -- line 55
  | unlockCount  -- line 56
  | fclose       -- line 57
  | returned     -- line 58, after `return NULL`
  | exited       -- line 35, after `pthread_exit(NULL)`
deriving DecidableEq, Repr

/-- Local state of one requester. `filename` stands for the file named by the
thread argument: `none` when `fopen` fails on it, otherwise the successive
tokens that `fscanf(inFile, "%1024s", hostname)` yields from it. `inFile` is
what remains to be scanned of the opened stream. -/
structure Requester where
  pc : ReqPc
  filename : Option (List String)
  inFile : List String
  hostname : String
  done : Bool
deriving DecidableEq, Repr

/-- One step of requester `j` (`reqRoutine`). `w` is the scheduler's choice of
the waiter released by `pthread_cond_signal`. `none` means the thread cannot
move: it is blocked on a mutex or has finished. -/
def reqRoutine (j w : Nat) (sh : Shared) (r : Requester) : Option (Shared × Requester) :=
  match r.pc with
  | .fopen =>
    match r.filename with
    | none => some (sh, { r with pc := .exited })
    | some toks => some (sh, { r with pc := .fscanf, inFile := toks })
  | .fscanf =>
    match r.inFile with
    | [] => some (sh, { r with pc := .lockCount })
    | tok :: rest =>
      some (sh, { r with pc := .lockQ, inFile := rest, hostname := tok, done := false })
  | .lockQ =>
    match pthread_mutex_lock sh.qLock (.req j) with
    | none => none
    | some m => some ({ sh with qLock := m }, { r with pc := .isFull })
  | .isFull =>
    if queue_is_full sh.q then some (sh, { r with pc := .unlockQ })
    else some (sh, { r with pc := .push })
  | .push =>
    some ({ sh with q := (queue_push sh.q r.hostname).1 }, { r with pc := .signal, done := true })
  | .signal =>
    match pthread_cond_signal sh.pushedQ w with
    | none => none
    | some ws => some ({ sh with pushedQ := ws }, { r with pc := .unlockQ })
  | .unlockQ =>
    some ({ sh with qLock := pthread_mutex_unlock sh.qLock },
          { r with pc := if r.done then .fscanf else .usleep })
  | .usleep => some (sh, { r with pc := .lockQ })
  | .lockCount =>
    match pthread_mutex_lock sh.readCountLock (.req j) with
    | none => none
    | some m => some ({ sh with readCountLock := m }, { r with pc := .incr })
  | .incr => some ({ sh with inFilesRead := sh.inFilesRead + 1 }, { r with pc := .unlockCount })
  | .unlockCount =>
    some ({ sh with readCountLock := pthread_mutex_unlock sh.readCountLock },
          { r with pc := .fclose })
  | .fclose => some (sh, { r with pc := .returned })
  | .returned => none
  | .exited => none

/-! ## Resolver threads (`resRoutine`, lines 62-90) -/

/-- Modelled from the spec: `util.c` is not among the sources. One call of the
resolution collaborator either succeeds, writing an address into the caller's
buffer, or fails with `UTIL_FAILURE`, leaving the buffer as it was. -/
inductive DnsResult where
  | success (addr : String)
  | failure
deriving DecidableEq, Repr

/-- Modelled from the spec: the call `dnslookup(hostname, IP, sizeof(IP))` with
outcome `d`; returns the status code and the new content of the buffer. -/
def dnslookup (d : DnsResult) (IP : String) : Int × String :=
  match d with
  | .success addr => (UTIL_SUCCESS, addr)
  | .failure => (UTIL_FAILURE, IP)

/-- Program points of `resRoutine`, named after the statement about to run. -/
inductive ResPc where
  | lockQ        -- line 65
  | isEmpty      -- line 66
  | lockCount    -- line 67
  | readCount    -- line 68
  | unlockCount  -- line 69
  | branch       -- line 70
  | unlockExit   -- line 71
  | condWait     -- line 75, about to call pthread_cond_wait
  | blocked      -- line 75, inside pthread_cond_wait
  | pop          -- line 78
  | unlockQ      -- line 79
  | dns          -- line 80
  | fixup        -- lines 81-84
  | lockOut      -- line 85
  | write        -- line 86
  | unlockOut    -- line 87
  | free         -- line 88
  | returned     -- line 72, after `return NULL`
deriving DecidableEq, Repr

/-- Local state of one resolver. `hostname` is the pointer popped from the
queue (`none` for NULL). -/
structure Resolver where
  pc : ResPc
  IP : String
  done : Bool
  hostname : Option String
  error : Int
deriving DecidableEq, Repr

/-- One step of resolver `k` (`resRoutine`). `d` is the outcome of the resolution
collaborator, used only by the `dnslookup` call. `none` means the thread
cannot move: it is blocked on a mutex, waits on `pushedQ`, or has finished. -/
def resRoutine (k : Nat) (d : DnsResult) (sh : Shared) (c : Resolver) :
    Option (Shared × Resolver) :=
  match c.pc with
  | .lockQ =>
    match pthread_mutex_lock sh.qLock (.res k) with
    | none => none
    | some m => some ({ sh with qLock := m }, { c with pc := .isEmpty })
  | .isEmpty =>
    if queue_is_empty sh.q then some (sh, { c with pc := .lockCount })
    else some (sh, { c with pc := .pop })
  | .lockCount =>
    match pthread_mutex_lock sh.readCountLock (.res k) with
    | none => none
    | some m => some ({ sh with readCountLock := m }, { c with pc := .readCount })
  | .readCount =>
    some (sh, { c with pc := .unlockCount, done := decide (sh.inFileCount = sh.inFilesRead) })
  | .unlockCount =>
    some ({ sh with readCountLock := pthread_mutex_unlock sh.readCountLock },
          { c with pc := .branch })
  | .branch =>
    if c.done then some (sh, { c with pc := .unlockExit })
    else some (sh, { c with pc := .condWait })
  | .unlockExit =>
    some ({ sh with qLock := pthread_mutex_unlock sh.qLock }, { c with pc := .returned })
  | .condWait =>
    some ({ sh with qLock := pthread_mutex_unlock sh.qLock, pushedQ := sh.pushedQ ++ [k] },
          { c with pc := .blocked })
  | .blocked =>
    if k ∈ sh.pushedQ then none
    else
      match pthread_mutex_lock sh.qLock (.res k) with
      | none => none
      | some m => some ({ sh with qLock := m }, { c with pc := .isEmpty })
  | .pop =>
    some ({ sh with q := (queue_pop sh.q).1 },
          { c with pc := .unlockQ, hostname := (queue_pop sh.q).2 })
  | .unlockQ =>
    some ({ sh with qLock := pthread_mutex_unlock sh.qLock }, { c with pc := .dns })
  | .dns =>
    some (sh, { c with pc := .fixup, error := (dnslookup d c.IP).1, IP := (dnslookup d c.IP).2 })
  | .fixup =>
    if c.error = UTIL_FAILURE then some (sh, { c with pc := .lockOut, IP := "" })
    else some (sh, { c with pc := .lockOut })
  | .lockOut =>
    match pthread_mutex_lock sh.outFileLock (.res k) with
    | none => none
    | some m => some ({ sh with outFileLock := m }, { c with pc := .write })
  | .write =>
    some ({ sh with outputfp := sh.outputfp ++ [(c.hostname.getD "(null)", c.IP)] },
          { c with pc := .unlockOut })
  | .unlockOut =>
    some ({ sh with outFileLock := pthread_mutex_unlock sh.outFileLock }, { c with pc := .free })
  | .free => some (sh, { c with pc := .lockQ, hostname := none })
  | .returned => none

/-! ## The interleaving semantics -/

/-- A global state: the shared variables and the local state of every thread. -/
structure State where
  sh : Shared
  reqs : List Requester
  ress : List Resolver
deriving DecidableEq, Repr

/-- A scheduling decision: which thread moves, together with the external
choice its step may consume (the waiter released by a signal, the outcome of a
resolution). -/
inductive Action where
  | req (j w : Nat)
  | res (k : Nat) (d : DnsResult)
deriving DecidableEq, Repr

/-- The thread that an action schedules. -/
def Action.tid : Action → Tid
  | .req j _ => .req j
  | .res k _ => .res k

/-- One step of the system: the scheduled thread takes one step of its routine. -/
def step (s : State) : Action → Option State
  | .req j w =>
    match s.reqs[j]? with
    | none => none
    | some r =>
      match reqRoutine j w s.sh r with
      | none => none
      | some (sh, r1) => some { sh := sh, reqs := s.reqs.set j r1, ress := s.ress }
  | .res k d =>
    match s.ress[k]? with
    | none => none
    | some c =>
      match resRoutine k d s.sh c with
      | none => none
      | some (sh, c1) => some { sh := sh, reqs := s.reqs, ress := s.ress.set k c1 }

/-- Running a schedule from a state; `none` when some scheduled step is not enabled. -/
def run : List Action → State → Option State
  | [], s => some s
  | a :: as, s =>
    match step s a with
    | none => none
    | some s1 => run as s1

/-- What `main` hands to the threads: for every input file name what `fopen`
and `fscanf` find there, the number of resolver threads, and the capacity the
queue got at construction. -/
structure Config where
  files : List (Option (List String))
  resolvers : Nat
  capacity : Nat
deriving DecidableEq, Repr

/-- A requester as created by `pthread_create(.., reqRoutine, filename)`. -/
def Requester.start (f : Option (List String)) : Requester :=
  { pc := .fopen, filename := f, inFile := [], hostname := "", done := false }

/-- A resolver as created by `pthread_create(.., resRoutine, NULL)`. -/
def Resolver.start : Resolver :=
  { pc := .lockQ, IP := "", done := false, hostname := none, error := 0 }

/-- The state once `main` has initialised the globals and created the threads
(lines 102-156): `inFileCount` is the number of input files, `inFilesRead` is 0,
the queue is empty, all mutexes are free and nobody waits on `pushedQ`. -/
def init (cfg : Config) : State :=
  { sh := { inFileCount := cfg.files.length
            inFilesRead := 0
            q := { items := [], maxSize := cfg.capacity }
            outputfp := []
            qLock := none
            outFileLock := none
            readCountLock := none
            pushedQ := [] }
    reqs := cfg.files.map Requester.start
    ress := List.replicate cfg.resolvers Resolver.start }

/-- The states some interleaving reaches from the initial state. -/
def Reachable (cfg : Config) (s : State) : Prop :=
  ∃ tr : List Action, run tr (init cfg) = some s

/-! ## Invariants of the interleaving semantics -/

/-- Program points of `reqRoutine` between `pthread_mutex_lock(&qLock)` and its unlock. -/
def ReqPc.holdsQ : ReqPc → Bool
  | .isFull | .push | .signal | .unlockQ => true
  | _ => false

/-- Program points of `reqRoutine` between locking and unlocking `readCountLock`. -/
def ReqPc.holdsCount : ReqPc → Bool
  | .incr | .unlockCount => true
  | _ => false

/-- Program points of `reqRoutine` after `inFilesRead++` has run. -/
def ReqPc.counted : ReqPc → Bool
  | .unlockCount | .fclose | .returned => true
  | _ => false

/-- Program points of `reqRoutine` after `fscanf` reported the end of the input. -/
def ReqPc.pastScan : ReqPc → Bool
  | .lockCount | .incr | .unlockCount | .fclose | .returned => true
  | _ => false

/-- Program points of `reqRoutine` inside `while(!done)` before the push. -/
def ReqPc.retrying : ReqPc → Bool
  | .lockQ | .isFull | .push | .usleep => true
  | _ => false

/-- Program points of `resRoutine` at which `qLock` is held. -/
def ResPc.holdsQ : ResPc → Bool
  | .isEmpty | .lockCount | .readCount | .unlockCount | .branch | .unlockExit | .condWait
  | .pop | .unlockQ => true
  | _ => false

/-- Program points of `resRoutine` at which `readCountLock` is held. -/
def ResPc.holdsCount : ResPc → Bool
  | .readCount | .unlockCount => true
  | _ => false

/-- Program points of `resRoutine` at which `outFileLock` is held. -/
def ResPc.holdsOut : ResPc → Bool
  | .write | .unlockOut => true
  | _ => false

/-- Program points inside the `while(queue_is_empty(&q))` body. -/
def ResPc.sawEmpty : ResPc → Bool
  | .lockCount | .readCount | .unlockCount | .branch | .unlockExit | .condWait => true
  | _ => false

/-- Program points at which the popped hostname has not been written yet. -/
def ResPc.hasHost : ResPc → Bool
  | .unlockQ | .dns | .fixup | .lockOut | .write => true
  | _ => false

/-- The resolver has decided to leave: it is on the exit path, or it has read
`done = 1` and is about to take it. -/
def ResPc.leaving : ResPc → Bool → Bool
  | .unlockExit, _ | .returned, _ => true
  | .unlockCount, d | .branch, d => d
  | _, _ => false

/-- What holds of requester `j` with local state `r` in every reachable state:
which locks it owns, that a push finds room, that nothing is left to scan once
`fscanf` failed, that `done` is 0 until the push, and that a requester whose
file cannot be opened never gets past `fopen`. -/
structure ReqOk (sh : Shared) (j : Nat) (r : Requester) : Prop where
  qLock_iff : sh.qLock = some (.req j) ↔ r.pc.holdsQ = true
  count_iff : sh.readCountLock = some (.req j) ↔ r.pc.holdsCount = true
  out_free : sh.outFileLock ≠ some (.req j)
  room : r.pc = .push → sh.q.items.length < sh.q.maxSize
  eof : r.pc.pastScan = true → r.inFile = []
  pending : r.pc.retrying = true → r.done = false
  unopened : r.filename = none → r.pc = .fopen ∨ r.pc = .exited

/-- What holds of resolver `k` with local state `c` in every reachable state:
which locks it owns, what it knows about the queue, that the popped hostname
is not NULL, and that it only leaves when all files are read and the queue is
empty. -/
structure ResOk (sh : Shared) (k : Nat) (c : Resolver) : Prop where
  qLock_iff : sh.qLock = some (.res k) ↔ c.pc.holdsQ = true
  count_iff : sh.readCountLock = some (.res k) ↔ c.pc.holdsCount = true
  out_iff : sh.outFileLock = some (.res k) ↔ c.pc.holdsOut = true
  empty : c.pc.sawEmpty = true → sh.q.items = []
  nonempty : c.pc = .pop → sh.q.items ≠ []
  host : c.pc.hasHost = true → c.hostname.isSome = true
  allRead : c.pc.leaving c.done = true → sh.inFilesRead = sh.inFileCount
  drained : c.pc = .returned → sh.q.items = []
  decided : c.pc = .unlockExit → c.done = true

/-- How one step of thread `t` may change the shared variables, with what the
stepping thread knows at that point. -/
inductive Effect (t : Tid) (sh : Shared) : Shared → Prop where
  | skip : Effect t sh sh
  | lockQ : sh.qLock = none → Effect t sh { sh with qLock := some t }
  | unlockQ (ws : List Nat) : sh.qLock = some t →
      Effect t sh { sh with qLock := none, pushedQ := ws }
  | lockCount : sh.readCountLock = none → Effect t sh { sh with readCountLock := some t }
  | unlockCount : sh.readCountLock = some t → Effect t sh { sh with readCountLock := none }
  | lockOut : sh.outFileLock = none → Effect t sh { sh with outFileLock := some t }
  | unlockOut : sh.outFileLock = some t → Effect t sh { sh with outFileLock := none }
  | push (h : String) : sh.qLock = some t → sh.inFilesRead ≠ sh.inFileCount →
      sh.q.items.length < sh.q.maxSize →
      Effect t sh { sh with q := { sh.q with items := sh.q.items ++ [h] } }
  | pop : sh.qLock = some t →
      Effect t sh { sh with q := { sh.q with items := sh.q.items.tail } }
  | signal (ws : List Nat) : Effect t sh { sh with pushedQ := ws }
  | incr : sh.readCountLock = some t → sh.inFilesRead ≠ sh.inFileCount →
      Effect t sh { sh with inFilesRead := sh.inFilesRead + 1 }
  | write (rec : String × String) : Effect t sh { sh with outputfp := sh.outputfp ++ [rec] }

/-- The global invariant of the interleaving semantics. -/
structure Inv (s : State) : Prop where
  reqs : ∀ j r, s.reqs[j]? = some r → ReqOk s.sh j r
  ress : ∀ k c, s.ress[k]? = some c → ResOk s.sh k c
  bound : s.sh.q.items.length ≤ s.sh.q.maxSize
  total : s.sh.inFileCount = s.reqs.length
  count : s.sh.inFilesRead = s.reqs.countP (fun r => r.pc.counted)

/-- The tokens requester `r` still has to push: its whole file before `fopen`,
nothing after a failed `fopen`, and otherwise the unread rest of the stream
plus the scanned token while `done` is still 0. -/
def Requester.todo (r : Requester) : List String :=
  match r.pc with
  | .fopen => r.filename.getD []
  | .exited => []
  | .lockQ | .isFull | .push | .signal | .unlockQ | .usleep =>
    if r.done then r.inFile else r.hostname :: r.inFile
  | _ => r.inFile

/-- The hostname resolver `c` has popped and not yet written. -/
def Resolver.todo (c : Resolver) : List String :=
  if c.pc.hasHost then c.hostname.toList else []

/-- Every hostname of the system: still to be pushed, in the queue, popped but
not yet written, or written. -/
def State.owed (s : State) : List String :=
  (s.reqs.map Requester.todo).flatten ++ s.sh.q.items ++ (s.ress.map Resolver.todo).flatten
    ++ s.sh.outputfp.map Prod.fst

/-! ## Vocabulary of the statements -/

/-- The tokens of all input files that can be opened, file after file. -/
def allTokens (cfg : Config) : List String :=
  (cfg.files.map fun f => f.getD []).flatten

/-- Every requester has left `reqRoutine` (by `return NULL` or by
`pthread_exit`) and every resolver has returned from `resRoutine`. -/
def State.finished (s : State) : Bool :=
  s.reqs.all (fun r => r.pc == .returned || r.pc == .exited) &&
    s.ress.all (fun c => c.pc == .returned)

/-- The hostnames of the records written to the output file. -/
def State.written (s : State) : List String :=
  s.sh.outputfp.map Prod.fst

/-- What a run keeps from its configuration: the number of threads, the
capacity of the queue and the file behind every requester. -/
structure Shape (cfg : Config) (s : State) : Prop where
  files : s.reqs.map (fun r => r.filename) = cfg.files
  resolvers : s.ress.length = cfg.resolvers
  capacity : s.sh.q.maxSize = cfg.capacity

/-- Scenario of the spec: two input files `a.com b.com` and `c.com`, one
resolver, a queue of capacity 50. -/
def cfgABC : Config :=
  { files := [some ["a.com", "b.com"], some ["c.com"]], resolvers := 1, capacity := 50 }

/-- A schedule for `cfgABC`: the first requester runs to completion, then the
second, then the resolver; the second resolution fails. -/
def trABC : List Action :=
  List.replicate 18 (.req 0 0) ++ List.replicate 12 (.req 1 0) ++
  List.replicate 10 (.res 0 (.success "1.1.1.1")) ++ List.replicate 10 (.res 0 .failure) ++
  List.replicate 17 (.res 0 (.success "3.3.3.3"))

/-- The state `trABC` ends in. -/
def endABC : State :=
  { sh := { inFileCount := 2
            inFilesRead := 2
            q := { items := [], maxSize := 50 }
            outputfp := [("a.com", "1.1.1.1"), ("b.com", ""), ("c.com", "3.3.3.3")]
            qLock := none
            outFileLock := none
            readCountLock := none
            pushedQ := [] }
    reqs := [{ pc := .returned, filename := some ["a.com", "b.com"], inFile := [],
               hostname := "b.com", done := true },
             { pc := .returned, filename := some ["c.com"], inFile := [],
               hostname := "c.com", done := true }]
    ress := [{ pc := .returned, IP := "3.3.3.3", done := true, hostname := none, error := 0 }] }

/-- The three mutexes of the program. -/
inductive Lock where
  | qLock
  | readCountLock
  | outFileLock
deriving DecidableEq, Repr

/-- The owner of a mutex in the shared state. -/
def Shared.owner (sh : Shared) : Lock → Mutex
  | .qLock => sh.qLock
  | .readCountLock => sh.readCountLock
  | .outFileLock => sh.outFileLock

/-- The set of locks thread `t` holds, in the order qLock, readCountLock, outFileLock. -/
def heldLocks (sh : Shared) (t : Tid) : List Lock :=
  [Lock.qLock, Lock.readCountLock, Lock.outFileLock].filter fun l => sh.owner l == some t

/-- How many times requester `j` executes `inFilesRead++` (line 55) along a schedule. -/
def incrSteps (j : Nat) : List Action → State → Nat
  | [], _ => 0
  | a :: as, s =>
    (if a.tid = .req j ∧ (s.reqs[j]?).map (fun r => r.pc) = some .incr then 1 else 0) +
      match step s a with
      | none => 0
      | some s1 => incrSteps j as s1

/-- The state a schedule leads to from the initial state (the initial state
itself when the schedule cannot be run). -/
def after (cfg : Config) (tr : List Action) : State :=
  (run tr (init cfg)).getD (init cfg)

/-- One input file holding the single hostname `a.com`, one resolver. -/
def cfgOne : Config :=
  { files := [some ["a.com"]], resolvers := 1, capacity := 50 }

/-- A schedule for `cfgOne`: the requester opens its file, scans `a.com`, locks
the queue and finds it not full; it is about to push. -/
def trPush : List Action := List.replicate 4 (.req 0 0)

/-- A schedule for `cfgOne`: the resolver locks the queue, finds it empty, reads
the counter (0 of 1) and is about to call `pthread_cond_wait`. -/
def trWait : List Action := List.replicate 6 (.res 0 .failure)

/-- The requester of `cfgOne` after `trPush`. -/
def reqAtPush : Requester :=
  { pc := .push, filename := some ["a.com"], inFile := [], hostname := "a.com", done := false }

/-- The resolver of `cfgOne` after `trWait`. -/
def resAtWait : Resolver :=
  { pc := .condWait, IP := "", done := false, hostname := none, error := 0 }

/-- A schedule for `cfgOne` that loses a wake-up: the resolver goes to sleep on
the empty queue; the requester pushes `a.com` and signals; the resolver wakes,
resolves and writes it, finds the queue empty again while `inFilesRead` is
still 0, and waits again; only then does the requester record its completion
and return. -/
def trLost : List Action :=
  List.replicate 7 (.res 0 .failure) ++ List.replicate 7 (.req 0 0) ++
  List.replicate 17 (.res 0 (.success "1.1.1.1")) ++ List.replicate 5 (.req 0 0)

/-- One input file that cannot be opened, one resolver. -/
def cfgBad : Config :=
  { files := [none], resolvers := 1, capacity := 50 }

/-- The requester of `cfgBad` after its only step, the failed `fopen`. -/
def reqExited : Requester :=
  { pc := .exited, filename := none, inFile := [], hostname := "", done := false }

/-- How many times a requester executes `queue_push` (line 44) along a schedule. -/
def pushSteps : List Action → State → Nat
  | [], _ => 0
  | a :: as, s =>
    (match a with
      | .req j _ => if (s.reqs[j]?).map (fun r => r.pc) = some .push then 1 else 0
      | .res _ _ => 0) +
      match step s a with
      | none => 0
      | some s1 => pushSteps as s1

/-- A complete schedule for `cfgOne`: the requester runs to its return, then
the resolver resolves `a.com`, finds all files read and returns. -/
def trOne : List Action :=
  List.replicate 12 (.req 0 0) ++ List.replicate 17 (.res 0 (.success "1.1.1.1"))

/-- The requester of `cfgOne` once it has returned. -/
def reqReturned : Requester :=
  { pc := .returned, filename := some ["a.com"], inFile := [], hostname := "a.com", done := true }

/-! ## The coordinator (`main`, lines 92-156) -/

/-- What `main` gets from its environment: whether the output file opens,
the value `queue_init(&q, 0)` returns, the value each `pthread_create` returns,
the `long` that `sysconf(_SC_NPROCESSORS_ONLN)` returns, and how many
`pthread_t` elements the stack can still hold when line 147 declares the array
`resThreads`. -/
structure Env where
  outputOpens : Bool
  queueInit : Int
  reqCreate : Nat → Int
  resCreate : Nat → Int
  coreCount : Int
  stackRoom : Nat

/-- The set-up actions of `main` that the statements speak about: opening the
output file (line 109, attempted), initialising the queue (line 116,
attempted), and every thread actually created (lines 138 and 151). -/
inductive Event where
  | fopenOutput
  | queueInit
  | createReq (j : Nat)
  | createRes (k : Nat)
deriving DecidableEq, Repr

/-- What `main` did up to line 156: its set-up actions in order, the exit code
when it stopped early (`none` when it goes on to join the threads, lines
158-175), and whether it ran into undefined behaviour at line 147; in that
case `events` holds what was done before and nothing is said about what
follows. -/
structure MainResult where
  events : List Event
  exit : Option Int
  undefined : Bool
deriving DecidableEq, Repr

/-- The loops of lines 137-143 and 150-156: `n` more iterations starting at
index `j`; each calls `pthread_create` and stops the program when it returns
a non-zero error. The Boolean tells whether all creations succeeded. -/
def spawn (create : Nat → Int) (mk : Nat → Event) : Nat → Nat → List Event × Bool
  | 0, _ => ([], true)
  | n + 1, j =>
    if create j ≠ 0 then ([], false)
    else ((mk j) :: (spawn create mk n (j + 1)).1, (spawn create mk n (j + 1)).2)

/-- The conversion of line 146, `int coreCount = sysconf(..)`: the `long` is
reduced modulo 2^32 into the range of a 32-bit `int`. -/
def intOfLong (v : Int) : Int :=
  (v + 2147483648) % 4294967296 - 2147483648

/-- The coordinator up to the creation of the threads (lines 92-156). A loop
`for(k = 0; k < bound; k++)` over an `int` bound runs `bound.toNat` times.
The declaration `pthread_t resThreads[coreCount]` of line 147 is undefined for
a negative `coreCount` and for an array that does not fit the stack; a size of
0 declares an empty array. -/
def main (argc : Int) (env : Env) : MainResult :=
  if argc < MINARGS then { events := [], exit := some EXIT_FAILURE, undefined := false }
  else
    let inFileCount := argc - 2
    if inFileCount > 10 then { events := [], exit := some EXIT_FAILURE, undefined := false }
    else if env.outputOpens = false then
      { events := [.fopenOutput], exit := some EXIT_FAILURE, undefined := false }
    else if env.queueInit = -1 then
      { events := [.fopenOutput, .queueInit], exit := some EXIT_FAILURE, undefined := false }
    else
      let reqThreads := spawn env.reqCreate .createReq inFileCount.toNat 0
      if reqThreads.2 = false then
        { events := [.fopenOutput, .queueInit] ++ reqThreads.1, exit := some EXIT_FAILURE,
          undefined := false }
      else
        let coreCount := intOfLong env.coreCount
        if coreCount < 0 ∨ (env.stackRoom : Int) < coreCount then
          { events := [.fopenOutput, .queueInit] ++ reqThreads.1, exit := none,
            undefined := true }
        else
          let resThreads := spawn env.resCreate .createRes coreCount.toNat 0
          if resThreads.2 = false then
            { events := [.fopenOutput, .queueInit] ++ reqThreads.1 ++ resThreads.1,
              exit := some EXIT_FAILURE, undefined := false }
          else
            { events := [.fopenOutput, .queueInit] ++ reqThreads.1 ++ resThreads.1,
              exit := none, undefined := false }

/-- The number of resolver threads `main` created. -/
def MainResult.resolvers (r : MainResult) : Nat :=
  r.events.countP fun e => match e with
    | .createRes _ => true
    | _ => false

/-- The number of steps thread `t` takes in a schedule. -/
def ownSteps (t : Tid) (tr : List Action) : Nat :=
  tr.countP fun a => decide (a.tid = t)

/-- Where a resolver is after `m` own steps from line 68, having read
`inFileCount == inFilesRead` as true: lines 69, 70, 71, then returned. It
takes no further step. -/
def exitPath (m : Nat) (sh : Shared) (c : Resolver) : Prop :=
  match m with
  | 0 => c.pc = .readCount ∧ sh.inFilesRead = sh.inFileCount
  | 1 => c.pc = .unlockCount ∧ c.done = true
  | 2 => c.pc = .branch ∧ c.done = true
  | 3 => c.pc = .unlockExit
  | 4 => c.pc = .returned
  | _ => False

/-- Where a resolver is after `m` own steps from line 68, having read
`inFileCount == inFilesRead` as false: lines 69, 70, 75, then inside
`pthread_cond_wait`. Nothing is said about what follows the wait. -/
def waitPath (m : Nat) (sh : Shared) (c : Resolver) : Prop :=
  match m with
  | 0 => c.pc = .readCount ∧ sh.inFilesRead ≠ sh.inFileCount
  | 1 => c.pc = .unlockCount ∧ c.done = false
  | 2 => c.pc = .branch ∧ c.done = false
  | 3 => c.pc = .condWait
  | 4 => c.pc = .blocked
  | _ => True

/-- A schedule for `cfgOne`: the requester runs to its return; the resolver
resolves `a.com`, comes back to the empty queue and is about to read the
counter (line 68) with 1 of 1 files read. -/
def trRead : List Action :=
  List.replicate 12 (.req 0 0) ++ List.replicate 13 (.res 0 (.success "1.1.1.1"))

/-- The resolver of `cfgOne` after `trRead`. -/
def resAtRead : Resolver :=
  { pc := .readCount, IP := "1.1.1.1", done := false, hostname := none, error := 0 }

/-- Four more steps of the resolver of `cfgOne`. -/
def trFour : List Action := List.replicate 4 (.res 0 .failure)

/-- The address that ends up in the record for a resolution outcome: the
resolver's address on success, the empty string on failure. -/
def DnsResult.address : DnsResult → String
  | .success addr => addr
  | .failure => ""

/-- Where a resolver is after `m` own steps from line 78 with `h` at the head
of the queue: it has popped `h` (line 79), then is about to call `dnslookup`
on it (line 80). -/
def popPath (h : String) (m : Nat) (sh : Shared) (c : Resolver) : Prop :=
  match m with
  | 0 => c.pc = .pop ∧ sh.q.items.head? = some h
  | 1 => c.pc = .unlockQ ∧ c.hostname = some h
  | 2 => c.pc = .dns ∧ c.hostname = some h
  | _ => True

/-- Where a resolver is after `m` own steps from line 81, holding hostname `h`,
when `a` is the address its record must carry: lines 85, 86 with `IP` equal to
`a`, then lines 87, 88 and back to line 65. -/
def writePath (h a : String) (m : Nat) (_sh : Shared) (c : Resolver) : Prop :=
  match m with
  | 0 => c.pc = .fixup ∧ c.hostname = some h ∧ (if c.error = UTIL_FAILURE then "" else c.IP) = a
  | 1 => c.pc = .lockOut ∧ c.hostname = some h ∧ c.IP = a
  | 2 => c.pc = .write ∧ c.hostname = some h ∧ c.IP = a
  | 3 => c.pc = .unlockOut
  | 4 => c.pc = .free
  | 5 => c.pc = .lockQ
  | _ => True

/-- A schedule for `cfgOne`: the requester runs to its return; the resolver
locks the queue and finds `a.com` in it; it is about to pop (line 78). -/
def trPop : List Action :=
  List.replicate 12 (.req 0 0) ++ List.replicate 2 (.res 0 .failure)

/-- The resolver of `cfgOne` after `trPop`. -/
def resAtPop : Resolver :=
  { pc := .pop, IP := "", done := false, hostname := none, error := 0 }

/-- The state a schedule leads to from `s` (`s` itself when it cannot be run). -/
def State.next (s : State) (tr : List Action) : State :=
  (run tr s).getD s

/-- Two steps of the resolver of `cfgOne`. -/
def trTwo : List Action := List.replicate 2 (.res 0 .failure)

/-- One input file that opens and holds no token at all, one resolver. -/
def cfgEmpty : Config :=
  { files := [some []], resolvers := 1, capacity := 50 }

/-- The complete run of the requester of `cfgEmpty`: `fopen`, `fscanf` at end
of input, then lines 54-58. -/
def trEmpty : List Action := List.replicate 6 (.req 0 0)

/-- One input file holding `a.com` and no resolver thread at all. -/
def cfgNone : Config :=
  { files := [some ["a.com"]], resolvers := 0, capacity := 50 }

/-- The complete run of the requester of `cfgNone`. -/
def trNone : List Action := List.replicate 12 (.req 0 0)

/-- A schedule for `cfgOne`: the resolver locks the queue, finds it empty, locks
the counter and is about to read it (line 68) with 0 of 1 files read. -/
def trThree : List Action := List.replicate 3 (.res 0 .failure)

/-- The resolver of `cfgOne` after `trThree`. -/
def resAtFirstRead : Resolver :=
  { pc := .readCount, IP := "", done := false, hostname := none, error := 0 }

/-- Whoever owns `outFileLock` is one of the resolver threads. -/
def OutOwner (s : State) : Prop :=
  ∀ t, s.sh.outFileLock = some t → ∃ k c, t = Tid.res k ∧ s.ress[k]? = some c

/-- The program point of a resolver after `m` own steps from line 78: one
iteration of the loop, lines 78 to 88, then line 65 again. -/
def iterPath (m : Nat) (_sh : Shared) (c : Resolver) : Prop :=
  match m with
  | 0 => c.pc = .pop
  | 1 => c.pc = .unlockQ
  | 2 => c.pc = .dns
  | 3 => c.pc = .fixup
  | 4 => c.pc = .lockOut
  | 5 => c.pc = .write
  | 6 => c.pc = .unlockOut
  | 7 => c.pc = .free
  | 8 => c.pc = .lockQ
  | _ => True

/-- Where resolver `k` is after `m` steps taken in a row from line 78, with `h`
at the head of the queue, `outFileLock` free, the output holding `out`, and
every step given the resolution outcome `d`. -/
def soloPath (k : Nat) (h : String) (d : DnsResult) (out : List (String × String)) (m : Nat)
    (sh : Shared) (c : Resolver) : Prop :=
  match m with
  | 0 => c.pc = .pop ∧ sh.q.items.head? = some h ∧ sh.outFileLock = none ∧ sh.outputfp = out
  | 1 => c.pc = .unlockQ ∧ c.hostname = some h ∧ sh.outFileLock = none ∧ sh.outputfp = out
  | 2 => c.pc = .dns ∧ c.hostname = some h ∧ sh.outFileLock = none ∧ sh.outputfp = out
  | 3 => c.pc = .fixup ∧ c.hostname = some h ∧
      (if c.error = UTIL_FAILURE then "" else c.IP) = d.address ∧
      sh.outFileLock = none ∧ sh.outputfp = out
  | 4 => c.pc = .lockOut ∧ c.hostname = some h ∧ c.IP = d.address ∧
      sh.outFileLock = none ∧ sh.outputfp = out
  | 5 => c.pc = .write ∧ c.hostname = some h ∧ c.IP = d.address ∧
      sh.outFileLock = some (.res k) ∧ sh.outputfp = out
  | 6 => c.pc = .unlockOut ∧ sh.outputfp = out ++ [(h, d.address)]
  | 7 => c.pc = .free ∧ sh.outputfp = out ++ [(h, d.address)]
  | 8 => c.pc = .lockQ ∧ sh.outputfp = out ++ [(h, d.address)]
  | _ => True

/-- The text of the output file: the records in the order written, each
printed by `fprintf(outputfp, "%s, %s\n", hostname, IP)`. -/
def outputText : List (String × String) → String
  | [] => ""
  | r :: rs => fprintfRecord r ++ outputText rs

/-- A schedule for `cfgABC`: both requesters run to their return; the resolver
resolves `a.com` to 1.1.1.1 and writes it, locks the queue again and is about
to pop `b.com` (line 78) with 1.1.1.1 still in its buffer. -/
def trPopB : List Action :=
  List.replicate 18 (.req 0 0) ++ List.replicate 12 (.req 1 0) ++
  List.replicate 10 (.res 0 (.success "1.1.1.1")) ++ List.replicate 2 (.res 0 .failure)

/-- The resolver of `cfgABC` after `trPopB`. -/
def resAtPopB : Resolver :=
  { pc := .pop, IP := "1.1.1.1", done := false, hostname := none, error := 0 }

/-- The hostnames requester `j` pushes (line 44) along a schedule, in order. -/
def pushedBy (j : Nat) : List Action → State → List String
  | [], _ => []
  | a :: as, s =>
    (if a.tid = .req j then
      match s.reqs[j]? with
      | some r => if r.pc = .push then [r.hostname] else []
      | none => []
    else []) ++
      match step s a with
      | none => []
      | some s1 => pushedBy j as s1

/-! ## One step of one thread: what it establishes and what it leaves alone -/

theorem pthread_mutex_lock_eq_some {m m1 : Mutex} {t : Tid} :
    pthread_mutex_lock m t = some m1 ↔ m = none ∧ m1 = some t := by
  cases m <;> simp [pthread_mutex_lock, eq_comm]

theorem reqRoutine_own {sh sh1 : Shared} {r r1 : Requester} {j w : Nat}
    (hr : ReqOk sh j r) (h : reqRoutine j w sh r = some (sh1, r1)) : ReqOk sh1 j r1 := by
  unfold reqRoutine at h
  obtain ⟨h1, h2, h3, h4, h5, h6, h7⟩ := hr
  split at h <;> (try split at h) <;> simp at h <;> obtain ⟨rfl, rfl⟩ := h <;>
    refine ⟨?_, ?_, ?_, ?_, ?_, ?_, ?_⟩ <;>
    simp_all [pthread_mutex_lock_eq_some, pthread_mutex_unlock, queue_is_full, queue_push,
      ReqPc.holdsQ, ReqPc.holdsCount, ReqPc.pastScan, ReqPc.retrying]

theorem queue_push_fst {q : queue} (h : String) (hroom : q.items.length < q.maxSize) :
    (queue_push q h).1 = { q with items := q.items ++ [h] } := by
  simp [queue_push, queue_is_full, Nat.not_le.mpr hroom]

theorem queue_pop_fst (q : queue) : (queue_pop q).1 = { q with items := q.items.tail } := by
  cases q with
  | mk items maxSize => cases items <;> simp [queue_pop]

theorem queue_pop_snd (q : queue) : (queue_pop q).2 = q.items.head? := by
  cases q with
  | mk items maxSize => cases items <;> simp [queue_pop]

theorem queue_pop_isSome {q : queue} (h : ¬q.items = []) : (queue_pop q).2.isSome = true := by
  cases q with
  | mk items maxSize => cases items <;> simp_all [queue_pop]

theorem reqRoutine_effect {sh sh1 : Shared} {r r1 : Requester} {j w : Nat}
    (hr : ReqOk sh j r) (hg : sh.inFilesRead = sh.inFileCount → r.pc.counted = true)
    (h : reqRoutine j w sh r = some (sh1, r1)) : Effect (.req j) sh sh1 := by
  unfold reqRoutine at h
  obtain ⟨hq, hc, -, hp, -, -, -⟩ := hr
  split at h <;> (try split at h) <;> simp at h <;> obtain ⟨rfl, rfl⟩ := h
  all_goals try (rename_i hl; rw [pthread_mutex_lock_eq_some] at hl; obtain ⟨hl0, rfl⟩ := hl)
  all_goals first
    | exact .skip
    | exact .lockQ hl0
    | exact .lockCount hl0
    | exact .unlockQ _ (hq.mpr (by simp [*, ReqPc.holdsQ]))
    | exact .unlockCount (hc.mpr (by simp [*, ReqPc.holdsCount]))
    | exact .signal _
    | exact .incr (hc.mpr (by simp [*, ReqPc.holdsCount]))
        (fun e => by have := hg e; simp_all [ReqPc.counted])
    | (rw [queue_push_fst _ (hp (by assumption))]
       exact .push _ (hq.mpr (by simp [*, ReqPc.holdsQ]))
        (fun e => by have := hg e; simp_all [ReqPc.counted]) (hp (by assumption)))

theorem ReqOk_frame {t : Tid} {sh sh1 : Shared} {i : Nat} {x : Requester}
    (he : Effect t sh sh1) (ht : t ≠ .req i) (hx : ReqOk sh i x) : ReqOk sh1 i x := by
  have hpush : x.pc.holdsQ = false → x.pc ≠ .push := fun e e1 => by simp [e1, ReqPc.holdsQ] at e
  obtain ⟨h1, h2, h3, h4, h5, h6, h7⟩ := hx
  cases he <;> refine ⟨?_, ?_, ?_, ?_, h5, h6, h7⟩ <;> simp_all

theorem ResOk_frame {t : Tid} {sh sh1 : Shared} {k : Nat} {c : Resolver}
    (he : Effect t sh sh1) (ht : t ≠ .res k) (hc : ResOk sh k c) : ResOk sh1 k c := by
  have h1 : c.pc.holdsQ = false → c.pc.sawEmpty = false := by
    cases c.pc <;> simp [ResPc.sawEmpty, ResPc.holdsQ]
  have h2 : c.pc.holdsQ = false → c.pc ≠ .pop := fun e e1 => by simp [e1, ResPc.holdsQ] at e
  have h3 : c.pc.leaving c.done = false → c.pc ≠ .returned :=
    fun e e1 => by simp [e1, ResPc.leaving] at e
  obtain ⟨g1, g2, g3, g4, g5, g6, g7, g8, g9⟩ := hc
  cases he <;> refine ⟨?_, ?_, ?_, ?_, ?_, g6, ?_, ?_, g9⟩ <;> simp_all

theorem resRoutine_own {sh sh1 : Shared} {c c1 : Resolver} {k : Nat} {d : DnsResult}
    (hc : ResOk sh k c) (h : resRoutine k d sh c = some (sh1, c1)) : ResOk sh1 k c1 := by
  unfold resRoutine at h
  obtain ⟨g1, g2, g3, g4, g5, g6, g7, g8, g9⟩ := hc
  split at h <;> (try split at h) <;> (try split at h) <;> simp at h <;>
    obtain ⟨rfl, rfl⟩ := h <;>
    refine ⟨?_, ?_, ?_, ?_, ?_, ?_, ?_, ?_, ?_⟩ <;>
    simp_all [pthread_mutex_lock_eq_some, pthread_mutex_unlock, queue_is_empty, queue_pop_fst,
      queue_pop_isSome,
      ResPc.holdsQ, ResPc.holdsCount, ResPc.holdsOut, ResPc.sawEmpty, ResPc.hasHost,
      ResPc.leaving]

theorem resRoutine_effect {sh sh1 : Shared} {c c1 : Resolver} {k : Nat} {d : DnsResult}
    (hc : ResOk sh k c) (h : resRoutine k d sh c = some (sh1, c1)) :
    Effect (.res k) sh sh1 := by
  unfold resRoutine at h
  obtain ⟨hq, hn, ho, -, -, -, -, -, -⟩ := hc
  split at h <;> (try split at h) <;> (try split at h) <;> simp at h <;>
    obtain ⟨rfl, rfl⟩ := h
  all_goals try (rename_i hl; rw [pthread_mutex_lock_eq_some] at hl; obtain ⟨hl0, rfl⟩ := hl)
  all_goals first
    | exact .skip
    | exact .lockQ hl0
    | exact .lockCount hl0
    | exact .lockOut hl0
    | exact .unlockQ _ (hq.mpr (by simp [*, ResPc.holdsQ]))
    | exact .unlockCount (hn.mpr (by simp [*, ResPc.holdsCount]))
    | exact .unlockOut (ho.mpr (by simp [*, ResPc.holdsOut]))
    | exact .write _
    | (rw [queue_pop_fst]
       exact .pop (hq.mpr (by simp [*, ResPc.holdsQ])))

theorem reqRoutine_count {sh sh1 : Shared} {r r1 : Requester} {j w : Nat}
    (h : reqRoutine j w sh r = some (sh1, r1)) :
    sh1.inFileCount = sh.inFileCount ∧
    sh1.inFilesRead + (if r.pc.counted then 1 else 0)
      = sh.inFilesRead + (if r1.pc.counted then 1 else 0) := by
  unfold reqRoutine at h
  split at h <;> (try split at h) <;> simp at h <;> obtain ⟨rfl, rfl⟩ := h <;>
    simp_all [ReqPc.counted]

theorem resRoutine_count {sh sh1 : Shared} {c c1 : Resolver} {k : Nat} {d : DnsResult}
    (h : resRoutine k d sh c = some (sh1, c1)) :
    sh1.inFileCount = sh.inFileCount ∧ sh1.inFilesRead = sh.inFilesRead := by
  unfold resRoutine at h
  split at h <;> (try split at h) <;> (try split at h) <;> simp at h <;>
    obtain ⟨rfl, rfl⟩ := h <;> simp

theorem Effect.bound {t : Tid} {sh sh1 : Shared} (he : Effect t sh sh1)
    (hb : sh.q.items.length ≤ sh.q.maxSize) : sh1.q.items.length ≤ sh1.q.maxSize := by
  cases he <;> simp_all <;> omega

/-! ## The invariant is inductive -/

theorem countP_set_add {α : Type} (p : α → Bool) (l : List α) (j : Nat) (old x : α)
    (h : l[j]? = some old) :
    ((l.set j x).countP p : Int) + (if p old then 1 else 0)
      = (l.countP p : Int) + (if p x then 1 else 0) := by
  induction l generalizing j with
  | nil => simp at h
  | cons a l ih =>
    cases j with
    | zero =>
      simp at h
      subst h
      simp [List.countP_cons]
      split <;> split <;> omega
    | succ j =>
      simp at h
      have := ih j h
      simp [List.countP_cons]
      omega

theorem Inv.all_counted {s : State} (hi : Inv s) (he : s.sh.inFilesRead = s.sh.inFileCount)
    {j : Nat} {r : Requester} (hj : s.reqs[j]? = some r) : r.pc.counted = true := by
  have h1 : s.reqs.countP (fun r => r.pc.counted) = s.reqs.length := by
    have := hi.total
    have := hi.count
    omega
  exact (List.countP_eq_length.mp h1) r (List.getElem?_mem hj)

theorem inv_init (cfg : Config) : Inv (init cfg) := by
  constructor
  · intro j r h
    simp [MultiLookup.init, List.getElem?_map] at h
    obtain ⟨f, -, rfl⟩ := h
    constructor <;>
      simp [MultiLookup.init, Requester.start, ReqPc.holdsQ, ReqPc.holdsCount, ReqPc.pastScan,
        ReqPc.retrying]
  · intro k c h
    simp [MultiLookup.init, List.getElem?_replicate] at h
    obtain ⟨-, rfl⟩ := h
    constructor <;>
      simp [MultiLookup.init, Resolver.start, ResPc.holdsQ, ResPc.holdsCount,
        ResPc.holdsOut, ResPc.sawEmpty, ResPc.hasHost, ResPc.leaving]
  · simp [MultiLookup.init]
  · simp [MultiLookup.init]
  · simp [MultiLookup.init, List.countP_map, Function.comp_def, Requester.start, ReqPc.counted]

theorem inv_step {s s1 : State} {a : Action} (hi : Inv s) (h : step s a = some s1) : Inv s1 := by
  cases a with
  | req j w =>
    simp only [MultiLookup.step] at h
    split at h
    · simp at h
    · rename_i r hr
      split at h
      · simp at h
      · rename_i sh1 r1 hstep
        simp at h
        subst h
        have hown := hi.reqs j r hr
        have heff := reqRoutine_effect hown (fun e => hi.all_counted e hr) hstep
        have hcnt := reqRoutine_count hstep
        constructor
        · intro i x hx
          simp only [List.getElem?_set] at hx
          split at hx
          · rename_i hji
            subst hji
            split at hx
            · simp at hx
              subst hx
              exact reqRoutine_own hown hstep
            · simp at hx
          · rename_i hji
            exact ReqOk_frame heff (by simpa using hji) (hi.reqs i x hx)
        · intro k c hc
          exact ResOk_frame heff (by simp) (hi.ress k c hc)
        · exact heff.bound hi.bound
        · simp [hcnt.1, hi.total]
        · have := countP_set_add (fun r => r.pc.counted) s.reqs j r r1 hr
          have := hi.count
          have := hcnt.2
          simp only at *
          omega
  | res k d =>
    simp only [MultiLookup.step] at h
    split at h
    · simp at h
    · rename_i c hc
      split at h
      · simp at h
      · rename_i sh1 c1 hstep
        simp at h
        subst h
        have hown := hi.ress k c hc
        have heff := resRoutine_effect hown hstep
        have hcnt := resRoutine_count hstep
        constructor
        · intro i x hx
          exact ReqOk_frame heff (by simp) (hi.reqs i x hx)
        · intro i x hx
          simp only [List.getElem?_set] at hx
          split at hx
          · rename_i hji
            subst hji
            split at hx
            · simp at hx
              subst hx
              exact resRoutine_own hown hstep
            · simp at hx
          · rename_i hji
            exact ResOk_frame heff (by simpa using hji) (hi.ress i x hx)
        · exact heff.bound hi.bound
        · simp [hcnt.1, hi.total]
        · simp [hcnt.2, hi.count]

theorem inv_run {tr : List Action} {s s1 : State} (hi : Inv s) (h : run tr s = some s1) :
    Inv s1 := by
  induction tr generalizing s with
  | nil =>
    simp [MultiLookup.run] at h
    subst h
    exact hi
  | cons a tr ih =>
    simp only [MultiLookup.run] at h
    split at h
    · simp at h
    · rename_i s2 hs
      exact ih (inv_step hi hs) h

theorem Reachable.inv {cfg : Config} {s : State} (h : Reachable cfg s) : Inv s := by
  obtain ⟨tr, htr⟩ := h
  exact inv_run (inv_init cfg) htr

/-! ## Conservation of hostnames -/

theorem count_flatten_set {α : Type} (f : α → List String) (l : List α) (j : Nat) (old x : α)
    (h : l[j]? = some old) (a : String) :
    ((l.set j x).map f).flatten.count a + (f old).count a
      = (l.map f).flatten.count a + (f x).count a := by
  induction l generalizing j with
  | nil => simp at h
  | cons b l ih =>
    cases j with
    | zero =>
      simp at h
      subst h
      simp
      omega
    | succ j =>
      simp at h
      have := ih j h
      simp at this ⊢
      omega

theorem count_head_tail (a : String) (l : List String) :
    l.head?.toList.count a + l.tail.count a = l.count a := by
  cases l <;> simp [List.count_cons]
  omega

theorem count_getD_toList (a : String) (o : Option String) (h : o.isSome = true) :
    o.toList.count a = if o.getD "(null)" = a then 1 else 0 := by
  cases o <;> simp_all [List.count_cons]

theorem reqRoutine_owed {sh sh1 : Shared} {r r1 : Requester} {j w : Nat}
    (hr : ReqOk sh j r) (h : reqRoutine j w sh r = some (sh1, r1)) (a : String) :
    r1.todo.count a + sh1.q.items.count a = r.todo.count a + sh.q.items.count a ∧
    sh1.outputfp = sh.outputfp := by
  unfold reqRoutine at h
  obtain ⟨-, -, -, hp, -, hd, -⟩ := hr
  split at h <;> (try split at h) <;> simp at h <;> obtain ⟨rfl, rfl⟩ := h <;>
    simp_all [Requester.todo, ReqPc.retrying, queue_push_fst, List.count_cons]
  all_goals (try split) <;> omega

theorem resRoutine_owed {sh sh1 : Shared} {c c1 : Resolver} {k : Nat} {d : DnsResult}
    (hc : ResOk sh k c) (h : resRoutine k d sh c = some (sh1, c1)) (a : String) :
    c1.todo.count a + sh1.q.items.count a + (sh1.outputfp.map Prod.fst).count a
      = c.todo.count a + sh.q.items.count a + (sh.outputfp.map Prod.fst).count a := by
  unfold resRoutine at h
  obtain ⟨-, -, -, -, -, hh, -, -, -⟩ := hc
  split at h <;> (try split at h) <;> (try split at h) <;> simp at h <;>
    obtain ⟨rfl, rfl⟩ := h <;>
    simp_all [Resolver.todo, ResPc.hasHost, queue_pop_fst, queue_pop_snd, List.count_cons]
  · have := count_head_tail a sh.q.items
    omega
  · have := count_getD_toList a c.hostname hh
    omega

theorem step_owed {s s1 : State} {a : Action} (hi : Inv s) (h : step s a = some s1)
    (x : String) : s1.owed.count x = s.owed.count x := by
  cases a with
  | req j w =>
    simp only [MultiLookup.step] at h
    split at h
    · simp at h
    · rename_i r hr
      split at h
      · simp at h
      · rename_i sh1 r1 hstep
        simp at h
        subst h
        have h1 := reqRoutine_owed (hi.reqs j r hr) hstep x
        have h2 := count_flatten_set Requester.todo s.reqs j r r1 hr x
        simp only [State.owed, List.count_append, h1.2]
        omega
  | res k d =>
    simp only [MultiLookup.step] at h
    split at h
    · simp at h
    · rename_i c hc
      split at h
      · simp at h
      · rename_i sh1 c1 hstep
        simp at h
        subst h
        have h1 := resRoutine_owed (hi.ress k c hc) hstep x
        have h2 := count_flatten_set Resolver.todo s.ress k c c1 hc x
        simp only [State.owed, List.count_append]
        omega

theorem run_owed {tr : List Action} {s s1 : State} (hi : Inv s) (h : run tr s = some s1)
    (x : String) : s1.owed.count x = s.owed.count x := by
  induction tr generalizing s with
  | nil =>
    simp [MultiLookup.run] at h
    subst h
    rfl
  | cons a tr ih =>
    simp only [MultiLookup.run] at h
    split at h
    · simp at h
    · rename_i s2 hs
      rw [ih (inv_step hi hs) h, step_owed hi hs]

/-! ## What a run keeps from its configuration -/

theorem reqRoutine_filename {sh sh1 : Shared} {r r1 : Requester} {j w : Nat}
    (h : reqRoutine j w sh r = some (sh1, r1)) : r1.filename = r.filename := by
  unfold reqRoutine at h
  split at h <;> (try split at h) <;> simp at h <;> obtain ⟨rfl, rfl⟩ := h <;> rfl

theorem Effect.maxSize {t : Tid} {sh sh1 : Shared} (he : Effect t sh sh1) :
    sh1.q.maxSize = sh.q.maxSize := by
  cases he <;> rfl

theorem map_set_same {α β : Type} (f : α → β) (l : List α) (j : Nat) (old x : α)
    (h : l[j]? = some old) (hf : f x = f old) : (l.set j x).map f = l.map f := by
  induction l generalizing j with
  | nil => simp
  | cons b l ih =>
    cases j with
    | zero =>
      simp at h
      subst h
      simp [hf]
    | succ j =>
      simp at h
      simp [ih j h]

theorem shape_init (cfg : Config) : Shape cfg (init cfg) := by
  constructor <;> simp [MultiLookup.init, Function.comp_def, Requester.start]

theorem shape_step {cfg : Config} {s s1 : State} {a : Action} (hi : Inv s) (hs : Shape cfg s)
    (h : step s a = some s1) : Shape cfg s1 := by
  obtain ⟨h1, h2, h3⟩ := hs
  cases a with
  | req j w =>
    simp only [MultiLookup.step] at h
    split at h
    · simp at h
    · rename_i r hr
      split at h
      · simp at h
      · rename_i sh1 r1 hstep
        simp at h
        subst h
        have heff := reqRoutine_effect (hi.reqs j r hr) (fun e => hi.all_counted e hr) hstep
        refine ⟨?_, h2, ?_⟩
        · rw [← h1]
          exact map_set_same _ _ _ r r1 hr (reqRoutine_filename hstep)
        · rw [← h3]
          exact heff.maxSize
  | res k d =>
    simp only [MultiLookup.step] at h
    split at h
    · simp at h
    · rename_i c hc
      split at h
      · simp at h
      · rename_i sh1 c1 hstep
        simp at h
        subst h
        have heff := resRoutine_effect (hi.ress k c hc) hstep
        refine ⟨h1, ?_, ?_⟩
        · simpa using h2
        · rw [← h3]
          exact heff.maxSize

theorem shape_run {cfg : Config} {tr : List Action} {s s1 : State} (hi : Inv s)
    (hs : Shape cfg s) (h : run tr s = some s1) : Shape cfg s1 := by
  induction tr generalizing s with
  | nil =>
    simp [MultiLookup.run] at h
    subst h
    exact hs
  | cons a tr ih =>
    simp only [MultiLookup.run] at h
    split at h
    · simp at h
    · rename_i s2 hs2
      exact ih (inv_step hi hs2) (shape_step hi hs hs2) h

theorem Reachable.shape {cfg : Config} {s : State} (h : Reachable cfg s) : Shape cfg s := by
  obtain ⟨tr, htr⟩ := h
  exact shape_run (inv_init cfg) (shape_init cfg) htr

/-! ## C1: output records and input tokens -/

theorem flatten_map_nil {α : Type} (f : α → List String) (l : List α)
    (h : ∀ a ∈ l, f a = []) : (l.map f).flatten = [] := by
  induction l with
  | nil => rfl
  | cons b l ih =>
    simp only [List.map_cons, List.flatten_cons]
    rw [h b (by simp), ih (fun a ha => h a (by simp [ha]))]
    rfl

theorem owed_init (cfg : Config) : (init cfg).owed = allTokens cfg := by
  have h1 : ((List.replicate cfg.resolvers Resolver.start).map Resolver.todo).flatten = [] := by
    apply flatten_map_nil
    intro a ha
    rw [List.eq_of_mem_replicate ha]
    rfl
  simp only [State.owed, MultiLookup.init, h1, allTokens, List.map_map]
  simp [Function.comp_def, Requester.todo, Requester.start]

theorem owed_finished {s : State} (hi : Inv s) (hne : s.ress ≠ []) (hf : s.finished = true) :
    s.owed = s.written := by
  simp only [State.finished, Bool.and_eq_true, List.all_eq_true, Bool.or_eq_true,
    beq_iff_eq] at hf
  obtain ⟨hreq, hres⟩ := hf
  have h1 : (s.reqs.map Requester.todo).flatten = [] := by
    apply flatten_map_nil
    intro r hr
    obtain ⟨j, hj⟩ := List.mem_iff_getElem?.mp hr
    have hok := (hi.reqs j r hj).eof
    rcases hreq r hr with h | h
    · have := hok (by simp [h, ReqPc.pastScan])
      simp [Requester.todo, h, this]
    · simp [Requester.todo, h]
  have h2 : (s.ress.map Resolver.todo).flatten = [] := by
    apply flatten_map_nil
    intro c hc
    simp [Resolver.todo, hres c hc, ResPc.hasHost]
  have h3 : s.sh.q.items = [] := by
    cases hl : s.ress with
    | nil => exact absurd hl hne
    | cons c cs =>
      have h0 : s.ress[0]? = some c := by simp [hl]
      exact (hi.ress 0 c h0).drained (hres c (by simp [hl]))
  simp [State.owed, State.written, h1, h2, h3]

/-- C1 as stated fails: with one input file holding `a.com` and no resolver
thread, the requester runs to its return pushing `a.com`; all requesters and
all (zero) resolvers have then returned, nothing was written, and `a.com` is
still in the queue. -/
theorem tokens_left_in_queue_without_resolver :
    run trNone (init cfgNone) = some (after cfgNone trNone) ∧
    (after cfgNone trNone).finished = true ∧
    (after cfgNone trNone).written = [] ∧
    (after cfgNone trNone).sh.q.items = ["a.com"] ∧
    allTokens cfgNone = ["a.com"] ∧
    ((after cfgNone trNone).written : Multiset String) ≠ (allTokens cfgNone : Multiset String) := by
  decide

/-- C1 amended: in every reachable state the hostnames still to be pushed,
queued, popped but unwritten and written form exactly the multiset of tokens
of the openable input files (each token is in one place, once); hence, when
there is at least one resolver thread, in every state where all requesters and
all resolvers have returned the multiset of hostnames in the output records
equals the multiset of tokens of all input files. -/
theorem output_hostnames_eq_tokens (cfg : Config) (s : State) (hs : Reachable cfg s) :
    (s.owed : Multiset String) = (allTokens cfg : Multiset String) ∧
    (0 < cfg.resolvers → s.finished = true →
      (s.written : Multiset String) = (allTokens cfg : Multiset String)) := by
  have hcount : ∀ x, s.owed.count x = (allTokens cfg).count x := by
    intro x
    obtain ⟨tr, htr⟩ := hs
    rw [run_owed (inv_init cfg) htr x, owed_init]
  have hperm : (s.owed : Multiset String) = (allTokens cfg : Multiset String) :=
    Multiset.coe_eq_coe.mpr (List.perm_iff_count.mpr hcount)
  refine ⟨hperm, fun hpos hfin => ?_⟩
  have hne : s.ress ≠ [] := by
    intro e
    have := hs.shape.resolvers
    rw [e] at this
    simp at this
    omega
  rw [← owed_finished hs.inv hne hfin]
  exact hperm

/-- C1 on the scenario of the spec: files `a.com b.com` and `c.com` with one
resolver end with exactly three records, one per hostname. -/
theorem output_hostnames_eq_tokens_witness :
    Reachable cfgABC endABC ∧ endABC.finished = true ∧
    (endABC.written : Multiset String) = (["a.com", "b.com", "c.com"] : Multiset String) ∧
    endABC.sh.outputfp.length = 3 :=
  ⟨⟨trABC, by decide⟩, by decide,
   (output_hostnames_eq_tokens cfgABC endABC ⟨trABC, by decide⟩).2 (by decide) (by decide),
   by decide⟩

/-! ## C5: the queue stays within its capacity -/

theorem queue_push_snd {q : queue} (h : String) (hroom : q.items.length < q.maxSize) :
    (queue_push q h).2 = true := by
  simp [queue_push, queue_is_full, Nat.not_le.mpr hroom]

/-- C5: in every reachable state the queue size is at most the capacity fixed
at construction; a requester checks for fullness and pushes under one hold of
qLock, so its push finds room and succeeds; a resolver checks for emptiness and
pops under one hold of qLock, so its pop finds an item, and the hostname given
to dnslookup is never NULL. -/
theorem queue_within_capacity (cfg : Config) (s : State) (hs : Reachable cfg s) :
    s.sh.q.maxSize = cfg.capacity ∧
    0 ≤ s.sh.q.items.length ∧ s.sh.q.items.length ≤ cfg.capacity ∧
    (∀ (j : Nat) (r : Requester), s.reqs[j]? = some r → (r.pc = .isFull ∨ r.pc = .push) →
      s.sh.qLock = some (.req j)) ∧
    (∀ (j : Nat) (r : Requester), s.reqs[j]? = some r → r.pc = .push →
      queue_is_full s.sh.q = false ∧ (queue_push s.sh.q r.hostname).2 = true) ∧
    (∀ (k : Nat) (c : Resolver), s.ress[k]? = some c → (c.pc = .isEmpty ∨ c.pc = .pop) →
      s.sh.qLock = some (.res k)) ∧
    (∀ (k : Nat) (c : Resolver), s.ress[k]? = some c → c.pc = .pop →
      queue_is_empty s.sh.q = false ∧ (queue_pop s.sh.q).2 ≠ none) ∧
    (∀ (k : Nat) (c : Resolver), s.ress[k]? = some c → c.pc = .dns → c.hostname ≠ none) := by
  have hi := hs.inv
  have hsh := hs.shape
  refine ⟨hsh.capacity, Nat.zero_le _, hsh.capacity ▸ hi.bound, ?_, ?_, ?_, ?_, ?_⟩
  · intro j r hj hpc
    apply (hi.reqs j r hj).qLock_iff.mpr
    rcases hpc with h | h <;> simp [h, ReqPc.holdsQ]
  · intro j r hj hpc
    have hroom := (hi.reqs j r hj).room hpc
    exact ⟨by simp [queue_is_full, hroom], queue_push_snd _ hroom⟩
  · intro k c hk hpc
    apply (hi.ress k c hk).qLock_iff.mpr
    rcases hpc with h | h <;> simp [h, ResPc.holdsQ]
  · intro k c hk hpc
    have hne := (hi.ress k c hk).nonempty hpc
    refine ⟨by simpa [queue_is_empty] using hne, ?_⟩
    have := queue_pop_isSome hne
    intro e
    simp [e] at this
  · intro k c hk hpc
    have := (hi.ress k c hk).host (by simp [hpc, ResPc.hasHost])
    intro e
    simp [e] at this

/-- C5 at a requester about to push `a.com` into the empty queue of capacity 50. -/
theorem queue_within_capacity_witness :
    Reachable cfgOne (after cfgOne trPush) ∧
    (after cfgOne trPush).sh.q.items.length ≤ 50 ∧
    (after cfgOne trPush).sh.qLock = some (.req 0) ∧
    (queue_push (after cfgOne trPush).sh.q "a.com").2 = true :=
  have h := queue_within_capacity cfgOne (after cfgOne trPush) ⟨trPush, by decide⟩
  ⟨⟨trPush, by decide⟩, h.2.2.1, h.2.2.2.1 0 reqAtPush (by decide) (Or.inr (by decide)),
   (h.2.2.2.2.1 0 reqAtPush (by decide) (by decide)).2⟩

/-! ## C10: lock discipline -/

theorem heldLocks_eq (sh : Shared) (t : Tid) :
    heldLocks sh t =
      (if sh.qLock = some t then [Lock.qLock] else []) ++
      (if sh.readCountLock = some t then [Lock.readCountLock] else []) ++
      (if sh.outFileLock = some t then [Lock.outFileLock] else []) := by
  by_cases h1 : sh.qLock = some t <;> by_cases h2 : sh.readCountLock = some t <;>
    by_cases h3 : sh.outFileLock = some t <;>
    simp [heldLocks, List.filter_cons, Shared.owner, h1, h2, h3]

theorem resOk_held {sh : Shared} {k : Nat} {c : Resolver} (h : ResOk sh k c) :
    heldLocks sh (.res k) =
      (if c.pc.holdsQ then [Lock.qLock] else []) ++
      (if c.pc.holdsCount then [Lock.readCountLock] else []) ++
      (if c.pc.holdsOut then [Lock.outFileLock] else []) := by
  rw [heldLocks_eq]
  simp only [h.qLock_iff, h.count_iff, h.out_iff]

theorem reqOk_held {sh : Shared} {j : Nat} {r : Requester} (h : ReqOk sh j r) :
    heldLocks sh (.req j) =
      (if r.pc.holdsQ then [Lock.qLock] else []) ++
      (if r.pc.holdsCount then [Lock.readCountLock] else []) := by
  rw [heldLocks_eq]
  simp only [h.qLock_iff, h.count_iff, h.out_free, if_false, List.append_nil]

/-- C10: in every reachable state, a resolver about to call pthread_cond_wait
holds exactly qLock; a requester sleeping in the full-queue backoff, a resolver
calling dnslookup (or blocked inside pthread_cond_wait), and any worker that
has left its routine hold no lock; and a thread about to acquire qLock (by
pthread_mutex_lock or on waking up in pthread_cond_wait) holds no lock, in
particular not readCountLock, while a resolver acquiring readCountLock holds
exactly qLock. -/
theorem lock_discipline (cfg : Config) (s : State) (hs : Reachable cfg s) :
    (∀ (k : Nat) (c : Resolver), s.ress[k]? = some c →
      (c.pc = .condWait → heldLocks s.sh (.res k) = [Lock.qLock]) ∧
      (c.pc = .dns → heldLocks s.sh (.res k) = []) ∧
      (c.pc = .returned → heldLocks s.sh (.res k) = []) ∧
      (c.pc = .lockQ ∨ c.pc = .blocked → heldLocks s.sh (.res k) = []) ∧
      (c.pc = .lockCount → heldLocks s.sh (.res k) = [Lock.qLock])) ∧
    (∀ (j : Nat) (r : Requester), s.reqs[j]? = some r →
      (r.pc = .usleep → heldLocks s.sh (.req j) = []) ∧
      (r.pc = .returned ∨ r.pc = .exited → heldLocks s.sh (.req j) = []) ∧
      (r.pc = .lockQ → heldLocks s.sh (.req j) = []) ∧
      (r.pc = .lockCount → heldLocks s.sh (.req j) = [])) := by
  have hi := hs.inv
  constructor
  · intro k c hk
    rw [resOk_held (hi.ress k c hk)]
    refine ⟨?_, ?_, ?_, ?_, ?_⟩ <;> intro h <;> (try rcases h with h | h) <;>
      simp [h, ResPc.holdsQ, ResPc.holdsCount, ResPc.holdsOut]
  · intro j r hj
    rw [reqOk_held (hi.reqs j r hj)]
    refine ⟨?_, ?_, ?_, ?_⟩ <;> intro h <;> (try rcases h with h | h) <;>
      simp [h, ReqPc.holdsQ, ReqPc.holdsCount]

/-- C10 at a resolver that found the queue empty with 0 of 1 files read: about
to wait, it holds qLock and nothing else. -/
theorem lock_discipline_witness :
    Reachable cfgOne (after cfgOne trWait) ∧
    heldLocks (after cfgOne trWait).sh (.res 0) = [Lock.qLock] :=
  ⟨⟨trWait, by decide⟩,
   ((lock_discipline cfgOne (after cfgOne trWait) ⟨trWait, by decide⟩).1 0 resAtWait
      (by decide)).1 (by decide)⟩

/-! ## C2: the lost wake-up -/

/-- C2 (the code loses the wake-up): with one file holding `a.com` and one
resolver, the schedule `trLost` reaches a state in which inFilesRead equals
inFileCount, the queue is empty, the requester has returned, and the resolver
is still blocked in pthread_cond_wait on pushedQ; no thread can take a step
from there, so the resolver never terminates. -/
theorem lost_wakeup_deadlock :
    run trLost (init cfgOne) = some (after cfgOne trLost) ∧
    (after cfgOne trLost).sh.inFilesRead = (after cfgOne trLost).sh.inFileCount ∧
    (after cfgOne trLost).sh.q.items = [] ∧
    (after cfgOne trLost).sh.outputfp = [("a.com", "1.1.1.1")] ∧
    (after cfgOne trLost).reqs.map (fun r => r.pc) = [ReqPc.returned] ∧
    (after cfgOne trLost).ress.map (fun c => c.pc) = [ResPc.blocked] ∧
    (after cfgOne trLost).sh.pushedQ = [0] ∧
    ∀ a : Action, step (after cfgOne trLost) a = none := by
  refine ⟨by decide, by decide, by decide, by decide, by decide, by decide, by decide, ?_⟩
  intro a
  have hs : after cfgOne trLost =
      { sh := { inFileCount := 1, inFilesRead := 1, q := { items := [], maxSize := 50 },
                outputfp := [("a.com", "1.1.1.1")], qLock := none, outFileLock := none,
                readCountLock := none, pushedQ := [0] }
        reqs := [{ pc := .returned, filename := some ["a.com"], inFile := [],
                   hostname := "a.com", done := true }]
        ress := [{ pc := .blocked, IP := "1.1.1.1", done := false, hostname := none,
                   error := 0 }] } := by decide
  rw [hs]
  cases a with
  | req j w => cases j <;> simp [step, reqRoutine]
  | res k d => cases k <;> simp [step, resRoutine]

/-! ## Steps seen from one thread -/

theorem step_req_iff {s s1 : State} {j w : Nat} :
    step s (.req j w) = some s1 ↔
      ∃ r sh1 r1, s.reqs[j]? = some r ∧ reqRoutine j w s.sh r = some (sh1, r1) ∧
        s1 = { sh := sh1, reqs := s.reqs.set j r1, ress := s.ress } := by
  constructor
  · intro h
    simp only [step] at h
    split at h
    · simp at h
    · rename_i r hr
      split at h
      · simp at h
      · rename_i sh1 r1 hstep
        simp at h
        exact ⟨r, sh1, r1, hr, hstep, h.symm⟩
  · rintro ⟨r, sh1, r1, hr, hstep, rfl⟩
    simp [step, hr, hstep]

theorem step_res_iff {s s1 : State} {k : Nat} {d : DnsResult} :
    step s (.res k d) = some s1 ↔
      ∃ c sh1 c1, s.ress[k]? = some c ∧ resRoutine k d s.sh c = some (sh1, c1) ∧
        s1 = { sh := sh1, reqs := s.reqs, ress := s.ress.set k c1 } := by
  constructor
  · intro h
    simp only [step] at h
    split at h
    · simp at h
    · rename_i c hc
      split at h
      · simp at h
      · rename_i sh1 c1 hstep
        simp at h
        exact ⟨c, sh1, c1, hc, hstep, h.symm⟩
  · rintro ⟨c, sh1, c1, hc, hstep, rfl⟩
    simp [step, hc, hstep]

theorem step_effect {s s1 : State} {a : Action} (hi : Inv s) (h : step s a = some s1) :
    Effect a.tid s.sh s1.sh := by
  cases a with
  | req j w =>
    obtain ⟨r, sh1, r1, hr, hstep, rfl⟩ := step_req_iff.mp h
    exact reqRoutine_effect (hi.reqs j r hr) (fun e => hi.all_counted e hr) hstep
  | res k d =>
    obtain ⟨c, sh1, c1, hc, hstep, rfl⟩ := step_res_iff.mp h
    exact resRoutine_effect (hi.ress k c hc) hstep

theorem step_other_req {s s1 : State} {a : Action} {j : Nat} (h : step s a = some s1)
    (ha : a.tid ≠ .req j) : s1.reqs[j]? = s.reqs[j]? := by
  cases a with
  | req i w =>
    obtain ⟨r, sh1, r1, hr, hstep, rfl⟩ := step_req_iff.mp h
    have hij : i ≠ j := fun e => ha (by simp [Action.tid, e])
    simp [List.getElem?_set, hij]
  | res k d =>
    obtain ⟨c, sh1, c1, hc, hstep, rfl⟩ := step_res_iff.mp h
    rfl

theorem step_other_res {s s1 : State} {a : Action} {k : Nat} (h : step s a = some s1)
    (ha : a.tid ≠ .res k) : s1.ress[k]? = s.ress[k]? := by
  cases a with
  | req i w =>
    obtain ⟨r, sh1, r1, hr, hstep, rfl⟩ := step_req_iff.mp h
    rfl
  | res i d =>
    obtain ⟨c, sh1, c1, hc, hstep, rfl⟩ := step_res_iff.mp h
    have hij : i ≠ k := fun e => ha (by simp [Action.tid, e])
    simp [List.getElem?_set, hij]

theorem step_own_req {s s1 : State} {j w : Nat} {r : Requester}
    (h : step s (.req j w) = some s1) (hr : s.reqs[j]? = some r) :
    ∃ r1, s1.reqs[j]? = some r1 ∧ reqRoutine j w s.sh r = some (s1.sh, r1) := by
  obtain ⟨r0, sh1, r1, hr0, hstep, rfl⟩ := step_req_iff.mp h
  rw [hr] at hr0
  cases hr0
  have hlt : j < s.reqs.length := by
    rcases Nat.lt_or_ge j s.reqs.length with h | h
    · exact h
    · simp [List.getElem?_eq_none h] at hr
  exact ⟨r1, by simp [List.getElem?_set, hlt], hstep⟩

theorem step_own_res {s s1 : State} {k : Nat} {d : DnsResult} {c : Resolver}
    (h : step s (.res k d) = some s1) (hc : s.ress[k]? = some c) :
    ∃ c1, s1.ress[k]? = some c1 ∧ resRoutine k d s.sh c = some (s1.sh, c1) := by
  obtain ⟨c0, sh1, c1, hc0, hstep, rfl⟩ := step_res_iff.mp h
  rw [hc] at hc0
  cases hc0
  have hlt : k < s.ress.length := by
    rcases Nat.lt_or_ge k s.ress.length with h | h
    · exact h
    · simp [List.getElem?_eq_none h] at hc
  exact ⟨c1, by simp [List.getElem?_set, hlt], hstep⟩

theorem run_cons {a : Action} {tr : List Action} {s s1 : State}
    (h : run (a :: tr) s = some s1) : ∃ s0, step s a = some s0 ∧ run tr s0 = some s1 := by
  simp only [MultiLookup.run] at h
  split at h
  · simp at h
  · rename_i s0 hs0
    exact ⟨s0, hs0, h⟩

/-! ## C3: an input file that cannot be opened -/

/-- C3 (the code does not record the completion): a requester whose input file
cannot be opened enqueues nothing and only ever is before `fopen` or gone
through `pthread_exit`; it never increments inFilesRead, so inFilesRead stays
below inFileCount in every reachable state and no resolver ever returns. -/
theorem unopenable_file_not_counted (cfg : Config) (s : State) (hs : Reachable cfg s)
    (j : Nat) (hj : cfg.files[j]? = some none) :
    (∃ r, s.reqs[j]? = some r ∧ (r.pc = .fopen ∨ r.pc = .exited) ∧ r.todo = [] ∧
      r.pc.counted = false) ∧
    s.sh.inFilesRead < s.sh.inFileCount ∧
    ∀ c ∈ s.ress, c.pc ≠ .returned := by
  have hi := hs.inv
  have hsh := hs.shape.files
  have hr : ∃ r, s.reqs[j]? = some r ∧ r.filename = none := by
    rw [← hsh, List.getElem?_map] at hj
    cases h : s.reqs[j]? with
    | none => simp [h] at hj
    | some r =>
      rw [h] at hj
      simp at hj
      exact ⟨r, rfl, hj⟩
  obtain ⟨r, hr, hnone⟩ := hr
  have hpc := (hi.reqs j r hr).unopened hnone
  have hnc : r.pc.counted = false := by
    rcases hpc with h | h <;> simp [h, ReqPc.counted]
  have hlt : s.sh.inFilesRead < s.sh.inFileCount := by
    have h1 := hi.total
    have h2 := hi.count
    have h3 : s.reqs.countP (fun r => r.pc.counted) ≤ s.reqs.length := List.countP_le_length _
    have h4 : s.reqs.countP (fun r => r.pc.counted) ≠ s.reqs.length := by
      intro e
      have := (List.countP_eq_length.mp e) r (List.getElem?_mem hr)
      simp [hnc] at this
    omega
  refine ⟨⟨r, hr, hpc, ?_, hnc⟩, hlt, ?_⟩
  · rcases hpc with h | h <;> simp [Requester.todo, h, hnone]
  · intro c hc hret
    obtain ⟨k, hk⟩ := List.mem_iff_getElem?.mp hc
    have := (hi.ress k c hk).allRead (by simp [hret, ResPc.leaving])
    omega

/-- C3 at one unopenable input file: after the requester has exited,
inFilesRead is 0 while inFileCount is 1. -/
theorem unopenable_file_not_counted_witness :
    Reachable cfgBad (after cfgBad [.req 0 0]) ∧
    (after cfgBad [.req 0 0]).reqs = [reqExited] ∧
    (after cfgBad [.req 0 0]).sh.inFilesRead = 0 ∧
    (after cfgBad [.req 0 0]).sh.inFileCount = 1 ∧
    (after cfgBad [.req 0 0]).sh.inFilesRead < (after cfgBad [.req 0 0]).sh.inFileCount :=
  ⟨⟨[.req 0 0], by decide⟩, by decide, by decide, by decide,
   (unopenable_file_not_counted cfgBad (after cfgBad [.req 0 0]) ⟨[.req 0 0], by decide⟩ 0
      (by decide)).2.1⟩

/-! ## C9: the completion counter -/

theorem reqRoutine_incr {sh sh1 : Shared} {r r1 : Requester} {j w : Nat}
    (h : reqRoutine j w sh r = some (sh1, r1)) :
    (if r.pc = .incr then 1 else 0) + (if r.pc.counted then 1 else 0)
      = (if r1.pc.counted then 1 else 0) ∧
    sh1.inFilesRead = sh.inFilesRead + (if r.pc = .incr then 1 else 0) := by
  unfold reqRoutine at h
  split at h <;> (try split at h) <;> simp at h <;> obtain ⟨rfl, rfl⟩ := h <;>
    simp_all [ReqPc.counted]

theorem run_incrSteps {tr : List Action} {s0 s : State} {j : Nat} {r0 : Requester}
    (h : run tr s0 = some s) (h0 : s0.reqs[j]? = some r0) :
    ∃ r, s.reqs[j]? = some r ∧
      incrSteps j tr s0 + (if r0.pc.counted then 1 else 0) = (if r.pc.counted then 1 else 0) := by
  induction tr generalizing s0 r0 with
  | nil =>
    simp [MultiLookup.run] at h
    subst h
    exact ⟨r0, h0, by simp [incrSteps]⟩
  | cons a tr ih =>
    simp only [MultiLookup.run] at h
    split at h
    · simp at h
    · rename_i s1 hs1
      by_cases ha : a.tid = .req j
      · cases a with
        | res k d => simp [Action.tid] at ha
        | req i w =>
          simp [Action.tid] at ha
          subst ha
          obtain ⟨r1, hr1, hstep⟩ := step_own_req hs1 h0
          obtain ⟨r, hr, hcnt⟩ := ih h hr1
          refine ⟨r, hr, ?_⟩
          have := (reqRoutine_incr hstep).1
          simp only [incrSteps, hs1, h0, Action.tid, Option.map_some', Option.some.injEq,
            true_and]
          omega
      · have hsame := step_other_req hs1 ha
        obtain ⟨r, hr, hcnt⟩ := ih h (hsame.trans h0)
        refine ⟨r, hr, ?_⟩
        simp only [incrSteps, hs1, ha, false_and, if_false]
        omega

theorem Effect.complete {t : Tid} {sh sh1 : Shared} (he : Effect t sh sh1)
    (hc : sh.inFilesRead = sh.inFileCount) :
    sh1.inFilesRead = sh1.inFileCount ∧ sh1.q.items.length ≤ sh.q.items.length := by
  cases he <;> simp_all

theorem run_complete {tr : List Action} {s s1 : State} (hi : Inv s)
    (hc : s.sh.inFilesRead = s.sh.inFileCount) (h : run tr s = some s1) :
    s1.sh.inFilesRead = s1.sh.inFileCount ∧ s1.sh.q.items.length ≤ s.sh.q.items.length ∧
    pushSteps tr s = 0 := by
  induction tr generalizing s with
  | nil =>
    simp [MultiLookup.run] at h
    subst h
    simp [hc, pushSteps]
  | cons a tr ih =>
    simp only [MultiLookup.run] at h
    split at h
    · simp at h
    · rename_i s2 hs2
      have he := (step_effect hi hs2).complete hc
      obtain ⟨h1, h2, h3⟩ := ih (inv_step hi hs2) he.1 h
      refine ⟨h1, Nat.le_trans h2 he.2, ?_⟩
      simp only [pushSteps, hs2, h3, Nat.add_zero]
      cases a with
      | res k d => rfl
      | req j w =>
        obtain ⟨r, sh1, r1, hr, -, -⟩ := step_req_iff.mp hs2
        have := hi.all_counted hc hr
        have hne : r.pc ≠ .push := fun e => by simp [e, ReqPc.counted] at this
        simp [hr, hne]

theorem reachable_reqs_init {cfg : Config} {s : State} (hs : Reachable cfg s) {j : Nat}
    {r : Requester} (hr : s.reqs[j]? = some r) :
    ∃ r0, (init cfg).reqs[j]? = some r0 ∧ r0.pc = .fopen := by
  have h1 : j < s.reqs.length := by
    rcases Nat.lt_or_ge j s.reqs.length with h | h
    · exact h
    · simp [List.getElem?_eq_none h] at hr
  have h2 : s.reqs.length = cfg.files.length := by
    rw [← hs.shape.files, List.length_map]
  have h3 : j < cfg.files.length := h2 ▸ h1
  exact ⟨Requester.start cfg.files[j], by simp [MultiLookup.init, h3], rfl⟩

theorem reqRoutine_todo {sh sh1 : Shared} {r r1 : Requester} {j w : Nat}
    (hr : ReqOk sh j r) (h : reqRoutine j w sh r = some (sh1, r1)) :
    (if r.pc = .push then [r.hostname] else []) ++ r1.todo = r.todo ∧
    (r.pc = .push → sh1.q.items = sh.q.items ++ [r.hostname]) := by
  unfold reqRoutine at h
  obtain ⟨-, -, -, hp, -, hd, -⟩ := hr
  split at h <;> (try split at h) <;> simp at h <;> obtain ⟨rfl, rfl⟩ := h <;>
    simp_all [Requester.todo, ReqPc.retrying, queue_push_fst]

theorem run_pushedBy {tr : List Action} {s0 s : State} {j : Nat} {r0 : Requester}
    (hi : Inv s0) (h : run tr s0 = some s) (h0 : s0.reqs[j]? = some r0) :
    ∃ r, s.reqs[j]? = some r ∧ pushedBy j tr s0 ++ r.todo = r0.todo := by
  induction tr generalizing s0 r0 with
  | nil =>
    simp [MultiLookup.run] at h
    subst h
    exact ⟨r0, h0, by simp [pushedBy]⟩
  | cons a tr ih =>
    obtain ⟨s1, hs1, hrest⟩ := run_cons h
    have hi1 := inv_step hi hs1
    by_cases ha : a.tid = .req j
    · cases a with
      | res k d => simp [Action.tid] at ha
      | req i w =>
        simp [Action.tid] at ha
        subst ha
        obtain ⟨r1, hr1, hstep⟩ := step_own_req hs1 h0
        obtain ⟨r, hr, hcnt⟩ := ih hi1 hrest hr1
        refine ⟨r, hr, ?_⟩
        have := (reqRoutine_todo (hi.reqs i r0 h0) hstep).1
        simp only [pushedBy, hs1, h0, Action.tid, if_true, List.append_assoc]
        rw [hcnt]
        exact this
    · have hsame := step_other_req hs1 ha
      obtain ⟨r, hr, hcnt⟩ := ih hi1 hrest (hsame.trans h0)
      refine ⟨r, hr, ?_⟩
      simp only [pushedBy, hs1, ha, if_false, List.nil_append]
      exact hcnt

theorem reqRoutine_enabled (j w : Nat) (sh : Shared) (r : Requester)
    (hpc : r.pc = .incr ∨ r.pc = .unlockCount ∨ r.pc = .fclose ∨ r.pc = .fscanf ∨
      r.pc = .fopen ∨ (r.pc = .lockCount ∧ sh.readCountLock = none)) :
    ∃ sh1 r1, reqRoutine j w sh r = some (sh1, r1) := by
  rcases hpc with h | h | h | h | h | ⟨h, hl⟩
  all_goals simp only [reqRoutine, h]
  all_goals first
    | exact ⟨_, _, rfl⟩
    | (split <;> exact ⟨_, _, rfl⟩)
    | (simp only [hl, pthread_mutex_lock]; exact ⟨_, _, rfl⟩)

theorem step_of_reqRoutine {s : State} {j w : Nat} {r : Requester}
    {sh1 : Shared} {r1 : Requester} (hj : s.reqs[j]? = some r)
    (h : reqRoutine j w s.sh r = some (sh1, r1)) :
    step s (.req j w) = some { sh := sh1, reqs := s.reqs.set j r1, ress := s.ress } ∧
    ({ sh := sh1, reqs := s.reqs.set j r1, ress := s.ress } : State).reqs[j]? = some r1 := by
  refine ⟨step_req_iff.mpr ⟨r, sh1, r1, hj, h, rfl⟩, ?_⟩
  have hlt : j < s.reqs.length := by
    rcases Nat.lt_or_ge j s.reqs.length with h | h
    · exact h
    · simp [List.getElem?_eq_none h] at hj
  simp [List.getElem?_set, hlt]

/-- What the code does guarantee about the completion counter. In every
reachable state 0 <= inFilesRead <= inFileCount, and inFilesRead is the number
of requesters that have passed line 55. Along the run a requester has executed
`inFilesRead++` exactly once if it has passed line 55 (in particular if it has
returned from line 58) and never otherwise; what it has pushed so far followed
by what it still has to push is its file, so at and after line 54 it has
pushed exactly the tokens of its file, in order. Lines 55, 56 and 57 are
always enabled and line 54 is enabled whenever readCountLock is free. A step
changes inFilesRead only if it is a requester's line 55, which adds exactly
one and holds readCountLock (resolver steps never change it, and it never
decreases). Once inFilesRead equals inFileCount it stays so and no push is
ever executed again. -/
theorem completion_counter (cfg : Config) (s : State) (hs : Reachable cfg s) :
    (0 ≤ s.sh.inFilesRead ∧ s.sh.inFilesRead ≤ s.sh.inFileCount) ∧
    s.sh.inFileCount = cfg.files.length ∧
    s.sh.inFilesRead = s.reqs.countP (fun r => r.pc.counted) ∧
    (∀ tr, run tr (init cfg) = some s → ∀ (j : Nat) (r : Requester), s.reqs[j]? = some r →
      incrSteps j tr (init cfg) = (if r.pc.counted then 1 else 0) ∧
      (r.pc = .returned → incrSteps j tr (init cfg) = 1) ∧
      (∃ f, cfg.files[j]? = some f ∧ pushedBy j tr (init cfg) ++ r.todo = f.getD [] ∧
        (r.pc.pastScan = true → pushedBy j tr (init cfg) = f.getD []))) ∧
    (∀ (j : Nat) (r : Requester), s.reqs[j]? = some r →
      (r.pc = .incr ∨ r.pc = .unlockCount ∨ r.pc = .fclose ∨
        (r.pc = .lockCount ∧ s.sh.readCountLock = none)) →
      ∀ w, ∃ s1, step s (.req j w) = some s1) ∧
    (∀ a s1, step s a = some s1 →
      s1.sh.inFilesRead = s.sh.inFilesRead ∨
      (s1.sh.inFilesRead = s.sh.inFilesRead + 1 ∧
        ∃ j w r, a = .req j w ∧ s.reqs[j]? = some r ∧ r.pc = .incr ∧
          s.sh.readCountLock = some (.req j) ∧ r.inFile = [] ∧ r.todo = [])) ∧
    (s.sh.inFilesRead = s.sh.inFileCount → ∀ tr s1, run tr s = some s1 →
      s1.sh.inFilesRead = s1.sh.inFileCount ∧ pushSteps tr s = 0 ∧
      s1.sh.q.items.length ≤ s.sh.q.items.length) := by
  have hi := hs.inv
  have hle : s.reqs.countP (fun r => r.pc.counted) ≤ s.reqs.length := List.countP_le_length _
  have hlen : s.reqs.length = cfg.files.length := by
    rw [← hs.shape.files, List.length_map]
  refine ⟨⟨?_, ?_⟩, ?_, hi.count, ?_, ?_, ?_, ?_⟩
  · rw [hi.count]
    exact Int.ofNat_nonneg _
  · rw [hi.count, hi.total]
    exact_mod_cast hle
  · rw [hi.total, hlen]
  · intro tr htr j r hr
    obtain ⟨r0, hr0, hpc0⟩ := reachable_reqs_init hs hr
    obtain ⟨r1, hr1, hcnt⟩ := run_incrSteps htr hr0
    rw [hr] at hr1
    cases hr1
    have h1 : incrSteps j tr (init cfg) = (if r.pc.counted then 1 else 0) := by
      simp [hpc0, ReqPc.counted] at hcnt
      simpa using hcnt
    refine ⟨h1, fun hret => by simp [h1, hret, ReqPc.counted], ?_⟩
    obtain ⟨r2, hr2, hpush⟩ := run_pushedBy (inv_init cfg) htr hr0
    rw [hr] at hr2
    cases hr2
    have hfile : ∃ f, cfg.files[j]? = some f ∧ r0 = Requester.start f := by
      simp only [MultiLookup.init, List.getElem?_map] at hr0
      cases hf : cfg.files[j]? with
      | none => simp [hf] at hr0
      | some f =>
        rw [hf] at hr0
        simp at hr0
        exact ⟨f, rfl, hr0.symm⟩
    obtain ⟨f, hf, rfl⟩ := hfile
    have htodo : (Requester.start f).todo = f.getD [] := rfl
    rw [htodo] at hpush
    refine ⟨f, hf, hpush, fun hps => ?_⟩
    have hnil := (hi.reqs j r hr).eof hps
    have : r.todo = [] := by
      cases hp : r.pc <;> simp_all [Requester.todo, ReqPc.pastScan]
    simpa [this] using hpush
  · intro j r hr hpc w
    obtain ⟨sh1, r1, hreq⟩ := reqRoutine_enabled j w s.sh r (by
      rcases hpc with e | e | e | e
      · exact Or.inl e
      · exact Or.inr (Or.inl e)
      · exact Or.inr (Or.inr (Or.inl e))
      · exact Or.inr (Or.inr (Or.inr (Or.inr (Or.inr e)))))
    exact ⟨_, (step_of_reqRoutine hr hreq).1⟩
  · intro a s1 hstep
    cases a with
    | res k d =>
      obtain ⟨c, sh1, c1, hc, hres, rfl⟩ := step_res_iff.mp hstep
      exact Or.inl (resRoutine_count hres).2
    | req j w =>
      obtain ⟨r, sh1, r1, hr, hreq, rfl⟩ := step_req_iff.mp hstep
      have h2 := (reqRoutine_incr hreq).2
      by_cases hpc : r.pc = .incr
      · right
        have hok := hi.reqs j r hr
        have hnil := hok.eof (by simp [hpc, ReqPc.pastScan])
        refine ⟨by simpa [hpc] using h2, j, w, r, rfl, hr, hpc,
          hok.count_iff.mpr (by simp [hpc, ReqPc.holdsCount]), hnil, ?_⟩
        simp [Requester.todo, hpc, hnil]
      · left
        simpa [hpc] using h2
  · intro hc tr s1 htr
    obtain ⟨h1, h2, h3⟩ := run_complete hi hc htr
    exact ⟨h1, h3, h2⟩

/-- On a complete run of one file holding `a.com`: the requester has
incremented inFilesRead exactly once after pushing exactly `a.com`, and
0 <= 1 <= 1; the same count is found for a file without any token. -/
theorem completion_counter_witness :
    Reachable cfgOne (after cfgOne trOne) ∧
    (after cfgOne trOne).sh.inFilesRead = 1 ∧
    (0 ≤ (after cfgOne trOne).sh.inFilesRead ∧
      (after cfgOne trOne).sh.inFilesRead ≤ (after cfgOne trOne).sh.inFileCount) ∧
    incrSteps 0 trOne (init cfgOne) = 1 ∧
    pushedBy 0 trOne (init cfgOne) = ["a.com"] ∧
    (incrSteps 0 trEmpty (init cfgEmpty) = 1 ∧ (after cfgEmpty trEmpty).sh.inFilesRead = 1) :=
  have h := completion_counter cfgOne (after cfgOne trOne) ⟨trOne, by decide⟩
  ⟨⟨trOne, by decide⟩, by decide, h.1,
   ((h.2.2.2.1 trOne (by decide) 0 reqReturned (by decide)).2.1 (by decide)), by decide,
   by decide⟩

/-- C9 (the code lets a producer leave without the increment): a requester
whose input file cannot be opened never executes `inFilesRead++` and never
pushes, along any run; it is before `fopen` or gone through `pthread_exit`;
before `fopen` its only step is enabled, leaves inFilesRead unchanged and ends
the thread at line 35; after that it never takes a step again. So not every
producer increments inFilesRead exactly once. -/
theorem unopenable_requester_never_increments (cfg : Config) (tr : List Action) (s : State)
    (h : run tr (init cfg) = some s) (j : Nat) (hj : cfg.files[j]? = some none) :
    incrSteps j tr (init cfg) = 0 ∧ pushedBy j tr (init cfg) = [] ∧
    ∃ r, s.reqs[j]? = some r ∧ (r.pc = .fopen ∨ r.pc = .exited) ∧
      (r.pc = .fopen → ∀ w, ∃ s1 r1, step s (.req j w) = some s1 ∧
        s1.reqs[j]? = some r1 ∧ r1.pc = .exited ∧ s1.sh.inFilesRead = s.sh.inFilesRead) ∧
      (r.pc = .exited → ∀ w, step s (.req j w) = none) := by
  have hs : Reachable cfg s := ⟨tr, h⟩
  have hi := hs.inv
  have hr0 : (init cfg).reqs[j]? = some (Requester.start none) := by
    simp [MultiLookup.init, List.getElem?_map, hj]
  obtain ⟨r, hr, hcnt⟩ := run_incrSteps h hr0
  obtain ⟨r2, hr2, hpush⟩ := run_pushedBy (inv_init cfg) h hr0
  rw [hr] at hr2
  cases hr2
  have hfn : r.filename = none := by
    have hfiles := hs.shape.files
    have : (s.reqs.map fun r => r.filename)[j]? = some none := by rw [hfiles, hj]
    simpa [List.getElem?_map, hr] using this
  have hpc := (hi.reqs j r hr).unopened hfn
  refine ⟨?_, ?_, r, hr, hpc, ?_, ?_⟩
  · rcases hpc with e | e <;> simp [e, Requester.start, ReqPc.counted] at hcnt <;> exact hcnt
  · have h0 : (Requester.start none).todo = [] := rfl
    rw [h0] at hpush
    exact (List.append_eq_nil.mp hpush).1
  · intro e w
    have hreq : reqRoutine j w s.sh r = some (s.sh, { r with pc := .exited }) := by
      simp [reqRoutine, e, hfn]
    obtain ⟨hstep, hk1⟩ := step_of_reqRoutine hr hreq
    exact ⟨_, _, hstep, hk1, rfl, rfl⟩
  · intro e w
    simp [step, hr, reqRoutine, e]

/-- C9 at one unopenable input file: the requester leaves after its only
step, having incremented nothing, and cannot step again. -/
theorem unopenable_requester_never_increments_witness :
    run [.req 0 0] (init cfgBad) = some (after cfgBad [.req 0 0]) ∧
    incrSteps 0 [.req 0 0] (init cfgBad) = 0 ∧
    (after cfgBad [.req 0 0]).reqs = [reqExited] ∧
    (after cfgBad [.req 0 0]).sh.inFilesRead = 0 ∧
    (after cfgBad [.req 0 0]).sh.inFileCount = 1 ∧
    step (after cfgBad [.req 0 0]) (.req 0 0) = none :=
  ⟨by decide,
   (unopenable_requester_never_increments cfgBad [.req 0 0] (after cfgBad [.req 0 0])
      (by decide) 0 (by decide)).1,
   by decide, by decide, by decide, by decide⟩

/-! ## C6 and C8: the coordinator -/

/-- C6: `main` returns a non-zero exit code before opening the output file,
initialising the queue or creating any thread if and only if the number of
input files N = argc - 2 is below 1 or above 10; 11 input files are rejected
with no thread created, and 10 input files pass the validation. -/
theorem main_validates_file_count (argc : Int) (env : Env) :
    (((main argc env).exit = some EXIT_FAILURE ∧ (main argc env).events = []) ↔
      (argc - 2 < 1 ∨ argc - 2 > 10)) ∧
    EXIT_FAILURE ≠ 0 ∧
    ((main 13 env).exit = some EXIT_FAILURE ∧ (main 13 env).events = []) ∧
    (main 12 env).events.head? = some Event.fopenOutput := by
  refine ⟨?_, by decide, ?_, ?_⟩
  · unfold main
    simp only [MINARGS]
    split_ifs <;> simp <;> omega
  · simp [main, MINARGS]
  · unfold main
    simp only [MINARGS]
    split_ifs <;> simp_all

theorem spawn_le (create : Nat → Int) (n j : Nat) :
    ((spawn create .createRes n j).1.countP fun e => match e with
      | .createRes _ => true
      | _ => false) ≤ n := by
  induction n generalizing j with
  | zero => simp [spawn]
  | succ n ih =>
    simp only [spawn]
    split_ifs
    · simp
    · have := ih (j + 1)
      simp only [List.countP_cons_of_pos]
      omega

theorem path_run (P : Nat → Shared → Resolver → Prop) (k : Nat)
    (own : ∀ m sh c d sh1 c1, ResOk sh k c → P m sh c →
      resRoutine k d sh c = some (sh1, c1) → P (m + 1) sh1 c1)
    (frame : ∀ m t sh sh1 c, t ≠ .res k → ResOk sh k c → Effect t sh sh1 →
      P m sh c → P m sh1 c)
    {tr : List Action} {s s1 : State} {c : Resolver} {m : Nat}
    (hi : Inv s) (hk : s.ress[k]? = some c) (hp : P m s.sh c) (h : run tr s = some s1) :
    ∃ c1, s1.ress[k]? = some c1 ∧ P (m + ownSteps (.res k) tr) s1.sh c1 := by
  induction tr generalizing s c m with
  | nil =>
    simp [MultiLookup.run] at h
    subst h
    exact ⟨c, hk, by simpa [ownSteps] using hp⟩
  | cons a tr ih =>
    obtain ⟨s0, hs0, hrest⟩ := run_cons h
    have hi0 := inv_step hi hs0
    by_cases ha : a.tid = .res k
    · cases a with
      | req j w => simp [Action.tid] at ha
      | res i d =>
        simp [Action.tid] at ha
        subst ha
        obtain ⟨c0, hc0, hstep⟩ := step_own_res hs0 hk
        obtain ⟨c1, hc1, hp1⟩ := ih hi0 hc0 (own m _ _ _ _ _ (hi.ress i c hk) hp hstep) hrest
        refine ⟨c1, hc1, ?_⟩
        have e : m + ownSteps (.res i) (.res i d :: tr) = m + 1 + ownSteps (.res i) tr := by
          simp [ownSteps, Action.tid]
          omega
        rw [e]
        exact hp1
    · have hsame := step_other_res hs0 ha
      have heff := step_effect hi hs0
      obtain ⟨c1, hc1, hp1⟩ :=
        ih hi0 (hsame.trans hk) (frame m _ _ _ _ ha (hi.ress k c hk) heff hp) hrest
      refine ⟨c1, hc1, ?_⟩
      have e : ownSteps (.res k) (a :: tr) = ownSteps (.res k) tr := by
        simp [ownSteps, ha]
      rw [e]
      exact hp1

theorem exitPath_own (k m : Nat) (sh : Shared) (c : Resolver) (d : DnsResult) (sh1 : Shared)
    (c1 : Resolver) (_hok : ResOk sh k c) (hp : exitPath m sh c)
    (h : resRoutine k d sh c = some (sh1, c1)) : exitPath (m + 1) sh1 c1 := by
  unfold resRoutine at h
  match m with
  | 0 | 1 | 2 | 3 | 4 =>
    simp only [exitPath] at hp ⊢
    split at h <;> simp_all
    all_goals (obtain ⟨rfl, rfl⟩ := h; simp_all)
  | n + 5 => simp [exitPath] at hp

theorem exitPath_frame (k m : Nat) (t : Tid) (sh sh1 : Shared) (c : Resolver)
    (_ht : t ≠ .res k) (_hok : ResOk sh k c) (he : Effect t sh sh1) (hp : exitPath m sh c) :
    exitPath m sh1 c := by
  match m with
  | 0 =>
    simp only [exitPath] at hp ⊢
    cases he <;> simp_all
  | 1 | 2 | 3 | 4 => exact hp
  | n + 5 => simp [exitPath] at hp

theorem waitPath_own (k m : Nat) (sh : Shared) (c : Resolver) (d : DnsResult) (sh1 : Shared)
    (c1 : Resolver) (_hok : ResOk sh k c) (hp : waitPath m sh c)
    (h : resRoutine k d sh c = some (sh1, c1)) : waitPath (m + 1) sh1 c1 := by
  unfold resRoutine at h
  match m with
  | 0 =>
    simp only [waitPath] at hp ⊢
    have hne : ¬sh.inFileCount = sh.inFilesRead := fun e => hp.2 e.symm
    split at h <;> simp_all
    all_goals (obtain ⟨rfl, rfl⟩ := h; simp_all)
  | 1 | 2 | 3 =>
    simp only [waitPath] at hp ⊢
    split at h <;> simp_all
    all_goals (obtain ⟨rfl, rfl⟩ := h; simp_all)
  | n + 4 => simp [waitPath]

theorem waitPath_frame (k m : Nat) (t : Tid) (sh sh1 : Shared) (c : Resolver)
    (ht : t ≠ .res k) (hok : ResOk sh k c) (he : Effect t sh sh1) (hp : waitPath m sh c) :
    waitPath m sh1 c := by
  match m with
  | 0 =>
    simp only [waitPath] at hp ⊢
    have hl := hok.count_iff.mpr (by simp [hp.1, ResPc.holdsCount])
    cases he <;> simp_all
  | 1 | 2 | 3 | 4 => exact hp
  | n + 5 => simp [waitPath]

/-! ## C4: the exit condition of a resolver -/

theorem resRoutine_returned {sh sh1 : Shared} {c c1 : Resolver} {k : Nat} {d : DnsResult}
    (h : resRoutine k d sh c = some (sh1, c1)) (hret : c1.pc = .returned) :
    c.pc = .unlockExit := by
  unfold resRoutine at h
  split at h <;> (try split at h) <;> (try split at h) <;> simp at h <;>
    obtain ⟨rfl, rfl⟩ := h <;> simp_all

theorem step_of_resRoutine {s : State} {k : Nat} {d : DnsResult} {c : Resolver}
    {sh1 : Shared} {c1 : Resolver} (hk : s.ress[k]? = some c)
    (h : resRoutine k d s.sh c = some (sh1, c1)) :
    step s (.res k d) = some { sh := sh1, reqs := s.reqs, ress := s.ress.set k c1 } ∧
    ({ sh := sh1, reqs := s.reqs, ress := s.ress.set k c1 } : State).ress[k]? = some c1 := by
  refine ⟨step_res_iff.mpr ⟨c, sh1, c1, hk, h, rfl⟩, ?_⟩
  have hlt : k < s.ress.length := by
    rcases Nat.lt_or_ge k s.ress.length with h | h
    · exact h
    · simp [List.getElem?_eq_none h] at hk
  simp [List.getElem?_set, hlt]

theorem solo_run (P : Nat → Shared → Resolver → Prop) (k : Nat) (d : DnsResult) (n : Nat)
    (stepP : ∀ m sh c, m < n → P m sh c →
      ∃ sh1 c1, resRoutine k d sh c = some (sh1, c1) ∧ P (m + 1) sh1 c1)
    (j : Nat) {m : Nat} {s : State} {c : Resolver} (hm : m + j = n)
    (hk : s.ress[k]? = some c) (hp : P m s.sh c) :
    ∃ s1 c1, run (List.replicate j (.res k d)) s = some s1 ∧ s1.ress[k]? = some c1 ∧
      P n s1.sh c1 := by
  induction j generalizing m s c with
  | zero =>
    have e : m = n := by omega
    subst e
    exact ⟨s, c, rfl, hk, hp⟩
  | succ j ih =>
    obtain ⟨sh1, c1, hres, hp1⟩ := stepP m s.sh c (by omega) hp
    obtain ⟨hstep, hk1⟩ := step_of_resRoutine hk hres
    obtain ⟨s2, c2, hrun, hk2, hp2⟩ := ih (m := m + 1) (by omega) hk1 hp1
    exact ⟨s2, c2, by simp [List.replicate_succ, MultiLookup.run, hstep, hrun], hk2, hp2⟩

theorem exitPath_step (k : Nat) (d : DnsResult) (m : Nat) (sh : Shared) (c : Resolver)
    (hm : m < 4) (hp : exitPath m sh c) :
    ∃ sh1 c1, resRoutine k d sh c = some (sh1, c1) ∧ exitPath (m + 1) sh1 c1 := by
  match m with
  | 0 | 1 | 2 | 3 =>
    simp only [exitPath] at hp
    simp [resRoutine, exitPath, hp]
    exact ⟨_, _, ⟨rfl, rfl⟩, by simp⟩
  | n + 4 => omega

theorem waitPath_step (k : Nat) (d : DnsResult) (m : Nat) (sh : Shared) (c : Resolver)
    (hm : m < 4)
    (hp : waitPath m sh c ∧ (m = 4 → k ∈ sh.pushedQ ∧ sh.qLock = none)) :
    ∃ sh1 c1, resRoutine k d sh c = some (sh1, c1) ∧
      (waitPath (m + 1) sh1 c1 ∧ (m + 1 = 4 → k ∈ sh1.pushedQ ∧ sh1.qLock = none)) := by
  obtain ⟨hp, -⟩ := hp
  match m with
  | 0 =>
    simp only [waitPath] at hp
    have hne : ¬sh.inFileCount = sh.inFilesRead := fun e => hp.2 e.symm
    simp [resRoutine, waitPath, hp, hne]
    exact ⟨_, _, ⟨rfl, rfl⟩, by simp⟩
  | 1 | 2 | 3 =>
    simp only [waitPath] at hp
    simp [resRoutine, waitPath, hp, pthread_mutex_unlock]
    exact ⟨_, _, ⟨rfl, rfl⟩, by simp⟩
  | n + 4 => omega

theorem blocked_waits {s : State} {k : Nat} {c : Resolver} (hk : s.ress[k]? = some c)
    (hpc : c.pc = .blocked) (hw : k ∈ s.sh.pushedQ) (d : DnsResult) :
    step s (.res k d) = none := by
  simp [step, hk, resRoutine, hpc, hw]

/-- C4: a resolver has a single exit condition. (1) Whenever it has returned,
the queue is empty and inFilesRead equals inFileCount. (2) The only step that
makes it return is its own `pthread_mutex_unlock(&qLock); return NULL` of
lines 71-72, taken with `done` read as 1, while it holds qLock with the queue
empty and inFilesRead equal to inFileCount. (3) When it reads the counter at
line 68 it holds qLock and readCountLock and the queue is empty. If
inFilesRead equals inFileCount there, it does return: its next four steps can
be taken at once and end in its return, and in every schedule each of them is
enabled when its turn comes (the resolver is never blocked), it takes no fifth
step, and the fourth is its return. If inFilesRead differs from inFileCount
there, it does wait: its next four steps (lines 68, 69, 70, 75) can be taken at
once and leave it inside pthread_cond_wait, registered on pushedQ with qLock
released and unable to move until signalled; in every schedule each of the
four is enabled when its turn comes, and up to the fourth it neither pops nor
returns. -/
theorem resolver_exit_condition (cfg : Config) (s : State) (hs : Reachable cfg s)
    (k : Nat) (c : Resolver) (hk : s.ress[k]? = some c) :
    (c.pc = .returned → s.sh.q.items = [] ∧ s.sh.inFilesRead = s.sh.inFileCount) ∧
    (∀ a s1 c1, step s a = some s1 → s1.ress[k]? = some c1 → c.pc ≠ .returned →
      c1.pc = .returned →
        a.tid = .res k ∧ c.pc = .unlockExit ∧ c.done = true ∧ s.sh.qLock = some (.res k) ∧
        s.sh.q.items = [] ∧ s.sh.inFilesRead = s.sh.inFileCount) ∧
    (c.pc = .readCount →
      (s.sh.qLock = some (.res k) ∧ s.sh.readCountLock = some (.res k) ∧ s.sh.q.items = []) ∧
      (s.sh.inFilesRead = s.sh.inFileCount →
        (∀ d, ∃ s4 c4, run (List.replicate 4 (.res k d)) s = some s4 ∧
          s4.ress[k]? = some c4 ∧ c4.pc = .returned) ∧
        ∀ tr s1, run tr s = some s1 → ∃ c1, s1.ress[k]? = some c1 ∧
          exitPath (ownSteps (.res k) tr) s1.sh c1 ∧
          ownSteps (.res k) tr ≤ 4 ∧ (ownSteps (.res k) tr = 4 → c1.pc = .returned) ∧
          (ownSteps (.res k) tr < 4 → ∀ d, ∃ s2, step s1 (.res k d) = some s2)) ∧
      (s.sh.inFilesRead ≠ s.sh.inFileCount →
        (∀ d, ∃ s4 c4, run (List.replicate 4 (.res k d)) s = some s4 ∧
          s4.ress[k]? = some c4 ∧ c4.pc = .blocked ∧ k ∈ s4.sh.pushedQ ∧
          s4.sh.qLock = none ∧ ∀ d1, step s4 (.res k d1) = none) ∧
        ∀ tr s1, run tr s = some s1 → ∃ c1, s1.ress[k]? = some c1 ∧
          waitPath (ownSteps (.res k) tr) s1.sh c1 ∧
          (ownSteps (.res k) tr ≤ 4 → c1.pc ≠ .pop ∧ c1.pc ≠ .returned) ∧
          (ownSteps (.res k) tr = 4 → c1.pc = .blocked) ∧
          (ownSteps (.res k) tr < 4 → ∀ d, ∃ s2, step s1 (.res k d) = some s2))) := by
  have hi := hs.inv
  have hok := hi.ress k c hk
  refine ⟨fun hret => ⟨hok.drained hret,
    hok.allRead (by simp [hret, ResPc.leaving])⟩, ?_, ?_⟩
  · intro a s1 c1 hstep hk1 hnot hret
    by_cases ha : a.tid = .res k
    · cases a with
      | req j w => simp [Action.tid] at ha
      | res i d =>
        simp [Action.tid] at ha
        subst ha
        obtain ⟨c0, hc0, hres⟩ := step_own_res hstep hk
        rw [hk1] at hc0
        cases hc0
        have hpc := resRoutine_returned hres hret
        exact ⟨rfl, hpc, hok.decided hpc, hok.qLock_iff.mpr (by simp [hpc, ResPc.holdsQ]),
          hok.empty (by simp [hpc, ResPc.sawEmpty]),
          hok.allRead (by simp [hpc, ResPc.leaving])⟩
    · have hsame := step_other_res hstep ha
      rw [hk1, hk] at hsame
      cases hsame
      exact absurd hret hnot
  · intro hpc
    refine ⟨⟨hok.qLock_iff.mpr (by simp [hpc, ResPc.holdsQ]),
      hok.count_iff.mpr (by simp [hpc, ResPc.holdsCount]),
      hok.empty (by simp [hpc, ResPc.sawEmpty])⟩, ?_, ?_⟩
    · intro heq
      refine ⟨fun d => ?_, fun tr s1 htr => ?_⟩
      · obtain ⟨s4, c4, hrun, hk4, hp4⟩ := solo_run exitPath k d 4
          (fun m sh c hm hp => exitPath_step k d m sh c hm hp) 4 (m := 0) (by omega) hk
          ⟨hpc, heq⟩
        exact ⟨s4, c4, hrun, hk4, hp4⟩
      · obtain ⟨c1, hc1, hp⟩ := path_run exitPath k (exitPath_own k) (exitPath_frame k)
          (m := 0) hi hk ⟨hpc, heq⟩ htr
        rw [Nat.zero_add] at hp
        refine ⟨c1, hc1, hp, ?_, ?_, ?_⟩
        · rcases hn : ownSteps (.res k) tr with _ | _ | _ | _ | _ | n
          all_goals first
            | omega
            | (rw [hn] at hp; simp [exitPath] at hp)
        · intro h4
          rw [h4] at hp
          exact hp
        · intro hlt d
          obtain ⟨sh2, c2, hres, -⟩ := exitPath_step k d _ _ _ hlt hp
          exact ⟨_, (step_of_resRoutine hc1 hres).1⟩
    · intro hne
      refine ⟨fun d => ?_, fun tr s1 htr => ?_⟩
      · obtain ⟨s4, c4, hrun, hk4, hp4, hq4⟩ := solo_run
          (fun m sh c => waitPath m sh c ∧ (m = 4 → k ∈ sh.pushedQ ∧ sh.qLock = none)) k d 4
          (fun m sh c hm hp => waitPath_step k d m sh c hm hp) 4 (m := 0) (by omega) hk
          ⟨⟨hpc, hne⟩, fun e => by omega⟩
        have hb : c4.pc = .blocked := hp4
        exact ⟨s4, c4, hrun, hk4, hb, (hq4 rfl).1, (hq4 rfl).2,
          fun d1 => blocked_waits hk4 hb (hq4 rfl).1 d1⟩
      · obtain ⟨c1, hc1, hp⟩ := path_run waitPath k (waitPath_own k) (waitPath_frame k)
          (m := 0) hi hk ⟨hpc, hne⟩ htr
        rw [Nat.zero_add] at hp
        refine ⟨c1, hc1, hp, ?_, ?_, ?_⟩
        · intro hle
          rcases hn : ownSteps (.res k) tr with _ | _ | _ | _ | _ | n
          all_goals first
            | omega
            | (rw [hn] at hp; simp only [waitPath] at hp; simp [hp])
        · intro h4
          rw [h4] at hp
          exact hp
        · intro hlt d
          obtain ⟨sh2, c2, hres, -⟩ := waitPath_step k d _ _ _ hlt ⟨hp, fun e => by omega⟩
          exact ⟨_, (step_of_resRoutine hc1 hres).1⟩

/-- C4 at a resolver of a finished run that reads the counter with 1 of 1 files
read and the queue empty: four steps later it has returned; and at a resolver
that reads the counter with 0 of 1 files read: four steps later it is blocked
on pushedQ. -/
theorem resolver_exit_condition_witness :
    (Reachable cfgOne (after cfgOne trRead) ∧
      (after cfgOne trRead).ress[0]? = some resAtRead ∧
      (after cfgOne trRead).sh.q.items = [] ∧
      (after cfgOne trRead).sh.inFilesRead = (after cfgOne trRead).sh.inFileCount ∧
      ((((after cfgOne trRead).next trFour).ress[0]?).map (fun c => c.pc)
        = some ResPc.returned)) ∧
    (Reachable cfgOne (after cfgOne trThree) ∧
      (after cfgOne trThree).ress[0]? = some resAtFirstRead ∧
      (after cfgOne trThree).sh.inFilesRead ≠ (after cfgOne trThree).sh.inFileCount ∧
      ((((after cfgOne trThree).next trFour).ress[0]?).map (fun c => c.pc)
        = some ResPc.blocked) ∧
      ((after cfgOne trThree).next trFour).sh.pushedQ = [0]) := by
  have h := resolver_exit_condition cfgOne (after cfgOne trRead) ⟨trRead, by decide⟩ 0
    resAtRead (by decide)
  have g := resolver_exit_condition cfgOne (after cfgOne trThree) ⟨trThree, by decide⟩ 0
    resAtFirstRead (by decide)
  refine ⟨⟨⟨trRead, by decide⟩, by decide, (h.2.2 (by decide)).1.2.2, by decide, ?_⟩,
    ⟨⟨trThree, by decide⟩, by decide, by decide, ?_, by decide⟩⟩
  · obtain ⟨c1, hc1, -, -, hret, -⟩ := ((h.2.2 (by decide)).2.1 (by decide)).2 trFour
      ((after cfgOne trRead).next trFour) (by decide)
    rw [hc1, Option.map_some', hret (by decide)]
  · obtain ⟨c1, hc1, -, -, hblk, -⟩ := ((g.2.2 (by decide)).2.2 (by decide)).2 trFour
      ((after cfgOne trThree).next trFour) (by decide)
    rw [hc1, Option.map_some', hblk (by decide)]

/-! ## C7: the record of a popped hostname -/

theorem popPath_own (h : String) (k m : Nat) (sh : Shared) (c : Resolver) (d : DnsResult)
    (sh1 : Shared) (c1 : Resolver) (_hok : ResOk sh k c) (hp : popPath h m sh c)
    (hstep : resRoutine k d sh c = some (sh1, c1)) : popPath h (m + 1) sh1 c1 := by
  unfold resRoutine at hstep
  match m with
  | 0 | 1 =>
    simp only [popPath] at hp ⊢
    split at hstep <;> simp_all
    all_goals (obtain ⟨rfl, rfl⟩ := hstep; simp_all [queue_pop_snd])
  | n + 2 => simp [popPath]

theorem popPath_frame (h : String) (k m : Nat) (t : Tid) (sh sh1 : Shared) (c : Resolver)
    (ht : t ≠ .res k) (hok : ResOk sh k c) (he : Effect t sh sh1) (hp : popPath h m sh c) :
    popPath h m sh1 c := by
  match m with
  | 0 =>
    simp only [popPath] at hp ⊢
    have hl := hok.qLock_iff.mpr (by simp [hp.1, ResPc.holdsQ])
    cases he <;> simp_all
  | 1 | 2 => exact hp
  | n + 3 => simp [popPath]

theorem writePath_own (h a : String) (k m : Nat) (sh : Shared) (c : Resolver) (d : DnsResult)
    (sh1 : Shared) (c1 : Resolver) (_hok : ResOk sh k c) (hp : writePath h a m sh c)
    (hstep : resRoutine k d sh c = some (sh1, c1)) : writePath h a (m + 1) sh1 c1 := by
  unfold resRoutine at hstep
  match m with
  | 0 | 1 | 2 | 3 | 4 =>
    simp only [writePath] at hp ⊢
    split at hstep <;> (try split at hstep) <;> simp_all
    all_goals (obtain ⟨rfl, rfl⟩ := hstep; simp_all)
  | n + 5 => simp [writePath]

theorem writePath_frame (h a : String) (k m : Nat) (t : Tid) (sh sh1 : Shared) (c : Resolver)
    (_ht : t ≠ .res k) (_hok : ResOk sh k c) (_he : Effect t sh sh1)
    (hp : writePath h a m sh c) : writePath h a m sh1 c := by
  match m with
  | 0 | 1 | 2 | 3 | 4 | 5 => exact hp
  | n + 6 => simp [writePath]

theorem resRoutine_outputfp {sh sh1 : Shared} {c c1 : Resolver} {k : Nat} {d : DnsResult}
    (h : resRoutine k d sh c = some (sh1, c1)) :
    sh1.outputfp =
      if c.pc = .write then sh.outputfp ++ [(c.hostname.getD "(null)", c.IP)]
      else sh.outputfp := by
  unfold resRoutine at h
  split at h <;> (try split at h) <;> (try split at h) <;> simp at h <;>
    obtain ⟨rfl, rfl⟩ := h <;> simp_all

theorem resRoutine_dns {sh sh1 : Shared} {c c1 : Resolver} {k : Nat} {d : DnsResult}
    (h : resRoutine k d sh c = some (sh1, c1)) (hpc : c.pc = .dns) :
    c1.pc = .fixup ∧ c1.hostname = c.hostname ∧
    (if c1.error = UTIL_FAILURE then "" else c1.IP) = d.address := by
  unfold resRoutine at h
  simp only [hpc] at h
  simp at h
  obtain ⟨rfl, rfl⟩ := h
  cases d <;> simp [dnslookup, DnsResult.address, UTIL_FAILURE, UTIL_SUCCESS]

theorem reqRoutine_outLock {sh sh1 : Shared} {r r1 : Requester} {j w : Nat}
    (h : reqRoutine j w sh r = some (sh1, r1)) : sh1.outFileLock = sh.outFileLock := by
  unfold reqRoutine at h
  split at h <;> (try split at h) <;> simp at h <;> obtain ⟨rfl, rfl⟩ := h <;> rfl

theorem resRoutine_outLock {sh sh1 : Shared} {c c1 : Resolver} {k : Nat} {d : DnsResult}
    (h : resRoutine k d sh c = some (sh1, c1)) :
    sh1.outFileLock = sh.outFileLock ∨ sh1.outFileLock = none ∨
      sh1.outFileLock = some (.res k) := by
  unfold resRoutine at h
  split at h <;> (try split at h) <;> (try split at h) <;> simp at h <;>
    obtain ⟨rfl, rfl⟩ := h <;>
    simp_all [pthread_mutex_lock_eq_some, pthread_mutex_unlock]

theorem outOwner_init (cfg : Config) : OutOwner (init cfg) := by
  intro t ht
  simp [MultiLookup.init] at ht

theorem outOwner_step {s s1 : State} {a : Action} (ho : OutOwner s)
    (h : step s a = some s1) : OutOwner s1 := by
  cases a with
  | req j w =>
    obtain ⟨r, sh1, r1, hr, hstep, rfl⟩ := step_req_iff.mp h
    intro t ht
    simp only at ht
    rw [reqRoutine_outLock hstep] at ht
    exact ho t ht
  | res k d =>
    obtain ⟨c, sh1, c1, hc, hstep, rfl⟩ := step_res_iff.mp h
    have hlt : k < s.ress.length := by
      rcases Nat.lt_or_ge k s.ress.length with h | h
      · exact h
      · simp [List.getElem?_eq_none h] at hc
    have keep : ∀ (k0 : Nat) (c0 : Resolver), s.ress[k0]? = some c0 →
        ∃ c2, (s.ress.set k c1)[k0]? = some c2 := by
      intro k0 c0 h0
      by_cases e : k = k0
      · subst e
        exact ⟨c1, by simp [List.getElem?_set, hlt]⟩
      · exact ⟨c0, by simp [List.getElem?_set, e, h0]⟩
    intro t ht
    simp only at ht ⊢
    rcases resRoutine_outLock hstep with e | e | e
    · rw [e] at ht
      obtain ⟨k0, c0, rfl, h0⟩ := ho t ht
      obtain ⟨c2, h2⟩ := keep k0 c0 h0
      exact ⟨k0, c2, rfl, h2⟩
    · rw [e] at ht
      cases ht
    · rw [e] at ht
      cases ht
      obtain ⟨c2, h2⟩ := keep k c hc
      exact ⟨k, c2, rfl, h2⟩

theorem outOwner_run {tr : List Action} {s s1 : State} (ho : OutOwner s)
    (h : run tr s = some s1) : OutOwner s1 := by
  induction tr generalizing s with
  | nil =>
    simp [MultiLookup.run] at h
    subst h
    exact ho
  | cons a tr ih =>
    obtain ⟨s0, hs0, hrest⟩ := run_cons h
    exact ih (outOwner_step ho hs0) hrest

theorem resRoutine_enabled (k : Nat) (d : DnsResult) (sh : Shared) (c : Resolver)
    (hpc : c.pc = .pop ∨ c.pc = .unlockQ ∨ c.pc = .dns ∨ c.pc = .fixup ∨ c.pc = .write ∨
      c.pc = .unlockOut ∨ c.pc = .free ∨ (c.pc = .lockOut ∧ sh.outFileLock = none)) :
    ∃ sh1 c1, resRoutine k d sh c = some (sh1, c1) := by
  rcases hpc with h | h | h | h | h | h | h | ⟨h, hl⟩
  all_goals simp only [resRoutine, h]
  all_goals first
    | exact ⟨_, _, rfl⟩
    | (split <;> exact ⟨_, _, rfl⟩)
    | (simp only [hl, pthread_mutex_lock]; exact ⟨_, _, rfl⟩)

theorem iterPath_own (k m : Nat) (sh : Shared) (c : Resolver) (d : DnsResult)
    (sh1 : Shared) (c1 : Resolver) (_hok : ResOk sh k c) (hp : iterPath m sh c)
    (hstep : resRoutine k d sh c = some (sh1, c1)) : iterPath (m + 1) sh1 c1 := by
  unfold resRoutine at hstep
  match m with
  | 0 | 1 | 2 | 3 | 4 | 5 | 6 | 7 =>
    simp only [iterPath] at hp ⊢
    split at hstep <;> (try split at hstep) <;> simp_all
    all_goals (obtain ⟨rfl, rfl⟩ := hstep; simp_all)
  | n + 8 => simp [iterPath]

theorem iterPath_frame (k m : Nat) (t : Tid) (sh sh1 : Shared) (c : Resolver)
    (_ht : t ≠ .res k) (_hok : ResOk sh k c) (_he : Effect t sh sh1)
    (hp : iterPath m sh c) : iterPath m sh1 c := by
  match m with
  | 0 | 1 | 2 | 3 | 4 | 5 | 6 | 7 | 8 => exact hp
  | n + 9 => simp [iterPath]

theorem iterPath_pc {m : Nat} {sh : Shared} {c : Resolver} (hm : m < 8)
    (hp : iterPath m sh c) :
    c.pc = .pop ∨ c.pc = .unlockQ ∨ c.pc = .dns ∨ c.pc = .fixup ∨ c.pc = .write ∨
      c.pc = .unlockOut ∨ c.pc = .free ∨ c.pc = .lockOut := by
  match m with
  | 0 | 1 | 2 | 3 | 4 | 5 | 6 | 7 =>
    simp only [iterPath] at hp
    simp [hp]
  | n + 8 => omega

theorem soloPath_step (k : Nat) (h : String) (d : DnsResult) (out : List (String × String))
    (m : Nat) (sh : Shared) (c : Resolver) (hm : m < 8) (hp : soloPath k h d out m sh c) :
    ∃ sh1 c1, resRoutine k d sh c = some (sh1, c1) ∧ soloPath k h d out (m + 1) sh1 c1 := by
  match m with
  | 0 | 1 | 3 | 4 | 5 | 6 | 7 =>
    simp only [soloPath] at hp
    simp only [resRoutine, hp.1, soloPath]
    first
      | exact ⟨_, _, rfl, by simp [hp, queue_pop_snd, pthread_mutex_unlock]⟩
      | (split <;> exact ⟨_, _, rfl, by simp_all⟩)
      | (simp only [hp.2.2.2.1, pthread_mutex_lock]
         exact ⟨_, _, rfl, by simp [hp]⟩)
  | 2 =>
    simp only [soloPath] at hp
    simp only [resRoutine, hp.1, soloPath]
    refine ⟨_, _, rfl, rfl, hp.2.1, ?_, hp.2.2.1, hp.2.2.2⟩
    cases d <;> simp [dnslookup, DnsResult.address, UTIL_FAILURE, UTIL_SUCCESS]
  | n + 8 => omega

theorem outputText_append (l : List (String × String)) (r : String × String) :
    outputText (l ++ [r]) = outputText l ++ fprintfRecord r := by
  induction l with
  | nil => simp [outputText]
  | cons x l ih => simp [outputText, ih, String.append_assoc]

theorem holdsOut_pc {p : ResPc} (h : p.holdsOut = true) : p = .write ∨ p = .unlockOut := by
  cases p <;> simp_all [ResPc.holdsOut]


/-- C7: let a resolver be about to pop (line 78) with hostname h at the head of
the queue. (1) In every schedule, after its next two steps it is about to call
dnslookup on h; if d is the outcome of that call, then after two more of its
steps it holds outFileLock at the fprintf of line 86, and that step appends
exactly the one record (h, a), printed as "h, a\n", where a is the resolver's
address when d is a success and the empty string when dnslookup returned
UTIL_FAILURE, whatever its buffer held before; two steps later the resolver is
back at line 65. (2) In every schedule each of these eight steps is enabled
when its turn comes, except that at line 85 the resolver waits while another
resolver holds outFileLock, and that resolver is at line 86 or 87 and can
itself step. (3) When outFileLock is free the eight steps can be taken at once
and end at line 65 with exactly that record appended. (4) A resolver step
appends a record only at line 86, and then exactly one. -/
theorem resolver_writes_record (cfg : Config) (s : State) (hs : Reachable cfg s)
    (k : Nat) (c : Resolver) (hk : s.ress[k]? = some c) (hpc : c.pc = .pop)
    (h : String) (hq : s.sh.q.items.head? = some h) :
    (∀ tr0 sd, run tr0 s = some sd → ownSteps (.res k) tr0 = 2 →
      (∃ cd, sd.ress[k]? = some cd ∧ cd.pc = .dns ∧ cd.hostname = some h) ∧
      ∀ d s0, step sd (.res k d) = some s0 →
        ∀ tr1 s1, run tr1 s0 = some s1 → ownSteps (.res k) tr1 = 2 →
          (∃ c1, s1.ress[k]? = some c1 ∧ c1.pc = .write ∧
            s1.sh.outFileLock = some (.res k)) ∧
          ∀ d2 s2, step s1 (.res k d2) = some s2 →
            (∀ a, d = .success a →
              s2.sh.outputfp = s1.sh.outputfp ++ [(h, a)] ∧
              outputText s2.sh.outputfp
                = outputText s1.sh.outputfp ++ (h ++ ", " ++ a ++ "\n")) ∧
            (d = .failure →
              s2.sh.outputfp = s1.sh.outputfp ++ [(h, "")] ∧
              outputText s2.sh.outputfp
                = outputText s1.sh.outputfp ++ (h ++ ", " ++ "" ++ "\n")) ∧
            (∀ tr2 s3, run tr2 s2 = some s3 → ownSteps (.res k) tr2 = 2 →
              ∃ c3, s3.ress[k]? = some c3 ∧ c3.pc = .lockQ)) ∧
    (∀ tr x, run tr s = some x → ownSteps (.res k) tr < 8 →
      ∃ cx, x.ress[k]? = some cx ∧ iterPath (ownSteps (.res k) tr) x.sh cx ∧
        (cx.pc ≠ .lockOut → ∀ d, ∃ x1, step x (.res k d) = some x1) ∧
        (cx.pc = .lockOut →
          (x.sh.outFileLock = none → ∀ d, ∃ x1, step x (.res k d) = some x1) ∧
          (∀ t, x.sh.outFileLock = some t →
            ∃ k1 c1, t = .res k1 ∧ x.ress[k1]? = some c1 ∧
              (c1.pc = .write ∨ c1.pc = .unlockOut) ∧
              ∀ d, ∃ x1, step x (.res k1 d) = some x1))) ∧
    (s.sh.outFileLock = none → ∀ d, ∃ s8 c8,
      run (List.replicate 8 (.res k d)) s = some s8 ∧ s8.ress[k]? = some c8 ∧
      c8.pc = .lockQ ∧
      (∀ a, d = .success a → s8.sh.outputfp = s.sh.outputfp ++ [(h, a)]) ∧
      (d = .failure → s8.sh.outputfp = s.sh.outputfp ++ [(h, "")])) ∧
    (∀ (x x1 : State) (cx : Resolver) (dx : DnsResult), x.ress[k]? = some cx →
      step x (.res k dx) = some x1 →
      x1.sh.outputfp =
        if cx.pc = .write then x.sh.outputfp ++ [(cx.hostname.getD "(null)", cx.IP)]
        else x.sh.outputfp) := by
  have hi := hs.inv
  have ho : OutOwner s := by
    obtain ⟨tr, htr⟩ := hs
    exact outOwner_run (outOwner_init cfg) htr
  refine ⟨?_, ?_, ?_, ?_⟩
  · intro tr0 sd h0 hn0
    obtain ⟨cd, hcd, hpd⟩ := path_run (popPath h) k (popPath_own h k) (popPath_frame h k)
      (m := 0) hi hk ⟨hpc, hq⟩ h0
    rw [hn0] at hpd
    simp only [popPath] at hpd
    refine ⟨⟨cd, hcd, hpd.1, hpd.2⟩, ?_⟩
    intro d s0 hd tr1 s1 h1 hn1
    have hid := inv_run hi h0
    obtain ⟨c0, hc0, hdns⟩ := step_own_res hd hcd
    have hfix := resRoutine_dns hdns hpd.1
    have hi0 := inv_step hid hd
    obtain ⟨c1, hc1, hpw⟩ := path_run (writePath h d.address) k (writePath_own h d.address k)
      (writePath_frame h d.address k) (m := 0) hi0 hc0
      ⟨hfix.1, hfix.2.1.trans hpd.2, hfix.2.2⟩ h1
    rw [hn1] at hpw
    have hi1 := inv_run hi0 h1
    have hpw2 : c1.pc = .write ∧ c1.hostname = some h ∧ c1.IP = d.address := hpw
    refine ⟨⟨c1, hc1, hpw2.1,
      (hi1.ress k c1 hc1).out_iff.mpr (by simp [hpw2.1, ResPc.holdsOut])⟩, ?_⟩
    intro d2 s2 h2
    obtain ⟨c2, hc2, hwr⟩ := step_own_res h2 hc1
    have hout := resRoutine_outputfp hwr
    have hp3 := writePath_own h d.address k 2 _ _ _ _ _ (hi1.ress k c1 hc1) hpw hwr
    have hrec : s2.sh.outputfp = s1.sh.outputfp ++ [(h, d.address)] := by
      rw [hout]
      simp [hpw2.1, hpw2.2.1, hpw2.2.2]
    refine ⟨?_, ?_, ?_⟩
    · intro a e
      subst e
      refine ⟨hrec, ?_⟩
      rw [hrec, outputText_append]
      rfl
    · intro e
      subst e
      refine ⟨hrec, ?_⟩
      rw [hrec, outputText_append]
      rfl
    · intro tr2 s3 h3 hn2
      obtain ⟨c3, hc3, hp5⟩ := path_run (writePath h d.address) k
        (writePath_own h d.address k) (writePath_frame h d.address k) (m := 3)
        (inv_step hi1 h2) hc2 hp3 h3
      rw [hn2] at hp5
      exact ⟨c3, hc3, hp5⟩
  · intro tr x hx hlt
    obtain ⟨cx, hcx, hp⟩ := path_run iterPath k (iterPath_own k) (iterPath_frame k)
      (m := 0) hi hk hpc hx
    rw [Nat.zero_add] at hp
    have hix := inv_run hi hx
    have hox := outOwner_run ho hx
    have hpcs := iterPath_pc hlt hp
    refine ⟨cx, hcx, hp, ?_, ?_⟩
    · intro hne d
      have hen : cx.pc = .pop ∨ cx.pc = .unlockQ ∨ cx.pc = .dns ∨ cx.pc = .fixup ∨
          cx.pc = .write ∨ cx.pc = .unlockOut ∨ cx.pc = .free ∨
          (cx.pc = .lockOut ∧ x.sh.outFileLock = none) := by
        rcases hpcs with e | e | e | e | e | e | e | e <;> simp_all
      obtain ⟨sh1, c1, hres⟩ := resRoutine_enabled k d x.sh cx hen
      exact ⟨_, (step_of_resRoutine hcx hres).1⟩
    · intro hlo
      refine ⟨fun hfree d => ?_, fun t ht => ?_⟩
      · obtain ⟨sh1, c1, hres⟩ := resRoutine_enabled k d x.sh cx
          (by simp [hlo, hfree])
        exact ⟨_, (step_of_resRoutine hcx hres).1⟩
      · obtain ⟨k1, c1, rfl, hk1⟩ := hox t ht
        have hpc1 := holdsOut_pc ((hix.ress k1 c1 hk1).out_iff.mp ht)
        refine ⟨k1, c1, rfl, hk1, hpc1, fun d => ?_⟩
        obtain ⟨sh2, c2, hres⟩ := resRoutine_enabled k1 d x.sh c1
          (by rcases hpc1 with e | e <;> simp [e])
        exact ⟨_, (step_of_resRoutine hk1 hres).1⟩
  · intro hfree d
    obtain ⟨s8, c8, hrun, hk8, hp8⟩ := solo_run (soloPath k h d s.sh.outputfp) k d 8
      (fun m sh c hm hp => soloPath_step k h d s.sh.outputfp m sh c hm hp) 8 (m := 0)
      (by omega) hk ⟨hpc, hq, hfree, rfl⟩
    have hp8' : c8.pc = .lockQ ∧ s8.sh.outputfp = s.sh.outputfp ++ [(h, d.address)] := hp8
    refine ⟨s8, c8, hrun, hk8, hp8'.1, ?_, ?_⟩
    · intro a e
      subst e
      exact hp8'.2
    · intro e
      subst e
      exact hp8'.2
  · intro x x1 cx dx hx hstep
    obtain ⟨cx1, -, hres⟩ := step_own_res hstep hx
    exact resRoutine_outputfp hres

/-- C7 on `a.com` resolved to 1.1.1.1 by the only resolver of `cfgOne`: the
record (`a.com`, 1.1.1.1) is written; and on `b.com` whose resolution fails
while the buffer still holds 1.1.1.1 from `a.com`: the record written is
(`b.com`, empty address), printed as "b.com, \n". -/
theorem resolver_writes_record_witness :
    (Reachable cfgOne (after cfgOne trPop) ∧
      (after cfgOne trPop).sh.q.items = ["a.com"] ∧
      ((after cfgOne trPop).next (List.replicate 8 (.res 0 (.success "1.1.1.1")))).sh.outputfp
        = [("a.com", "1.1.1.1")]) ∧
    (Reachable cfgABC (after cfgABC trPopB) ∧
      (after cfgABC trPopB).ress[0]? = some resAtPopB ∧
      (after cfgABC trPopB).sh.q.items = ["b.com", "c.com"] ∧
      ((((after cfgABC trPopB).next trTwo).next [.res 0 .failure]).next trTwo).sh.outputfp
        = [("a.com", "1.1.1.1")] ∧
      (((((after cfgABC trPopB).next trTwo).next [.res 0 .failure]).next trTwo).next
        [.res 0 .failure]).sh.outputfp = [("a.com", "1.1.1.1")] ++ [("b.com", "")] ∧
      outputText (((((after cfgABC trPopB).next trTwo).next [.res 0 .failure]).next
        trTwo).next [.res 0 .failure]).sh.outputfp = "a.com, 1.1.1.1\nb.com, \n") := by
  have h := resolver_writes_record cfgOne (after cfgOne trPop) ⟨trPop, by decide⟩ 0 resAtPop
    (by decide) (by decide) "a.com" (by decide)
  have g := resolver_writes_record cfgABC (after cfgABC trPopB) ⟨trPopB, by decide⟩ 0
    resAtPopB (by decide) (by decide) "b.com" (by decide)
  refine ⟨⟨⟨trPop, by decide⟩, by decide, ?_⟩,
    ⟨⟨trPopB, by decide⟩, by decide, by decide, by decide, ?_, by decide⟩⟩
  · obtain ⟨s8, c8, hrun, -, -, hsucc, -⟩ := h.2.2.1 (by decide) (.success "1.1.1.1")
    have e : (after cfgOne trPop).next (List.replicate 8 (.res 0 (.success "1.1.1.1"))) = s8 := by
      unfold State.next
      rw [hrun]
      rfl
    rw [e, hsucc "1.1.1.1" rfl]
    decide
  · have g1 := (g.1 trTwo ((after cfgABC trPopB).next trTwo) (by decide) (by decide)).2
      .failure (((after cfgABC trPopB).next trTwo).next [.res 0 .failure]) (by decide)
      trTwo ((((after cfgABC trPopB).next trTwo).next [.res 0 .failure]).next trTwo)
      (by decide) (by decide)
    have g2 := (g1.2 .failure (((((after cfgABC trPopB).next trTwo).next
      [.res 0 .failure]).next trTwo).next [.res 0 .failure]) (by decide)).2.1 rfl
    rw [g2.1]
    decide

end MultiLookup
